import Mathlib

/-!
Verification of the Osyris interpreter sources against their specification.

Byte strings (the BString type of the sources) are modelled as lists of
natural numbers, one per byte.
-/

namespace Osyris

/-- Byte strings: the BString type of the sources, one natural number per byte. -/
abbrev BStr := List Nat

/-- Convert a Lean string literal of ASCII characters to its byte list. -/
def strToB (s : String) : BStr := s.data.map Char.toNat

/-- The ASCII apostrophe byte, used in error messages of the sources. -/
def aposB : Nat := 39

/-- Error message: Variable (quoted name) does not exist (eval.rs and stdlib.rs). -/
def msgVarNotExist (name : BStr) : BStr :=
  strToB "Variable " ++ [aposB] ++ name ++ [aposB] ++ strToB " doesn" ++ [aposB] ++ strToB "t exist"

/-- Error message of the empty call list (eval.rs). -/
def msgCallEmpty : BStr := strToB "Call list has no elements"

/-- Error message for calling a non-callable value (eval.rs). -/
def msgNonFunction : BStr := strToB "Attempt to call non-function"

namespace OldDraft

/-!
Embedding of the minimal draft evaluator in src/src/eval.rs.  Its value
domain (ValRef), scope and evaluator are self-contained and differ from the
richer draft that stdlib.rs belongs to.
-/

/-- AST of the minimal draft (the Expression enum used by src/src/eval.rs:
String, Number (i32), Name, Call, Quote; no locations). -/
inductive ExprO where
  | str (s : BStr)
  | num (n : Int)
  | name (n : BStr)
  | call (children : List ExprO)
  | quote (children : List ExprO)

/-- The ValRef enum of src/src/eval.rs: None, Number(i32), String, Quote, List,
Func.  A Func is a static pure function from an argument vector to a value; we
model the function pointer as an index into an ambient table. -/
inductive ValO where
  | none
  | num (n : Int)
  | str (s : BStr)
  | quote (q : List ExprO)
  | list (l : List ValO)
  | func (fid : Nat)

/-- Table interpreting Func pointers: src/src/eval.rs Func holds a
(Vec of ValRef to ValRef) function taking no scope. -/
abbrev FTabO := Nat → List ValO → ValO

/-- Evaluation errors: the minimal draft returns Result with a String error;
fuel exhaustion is an artifact of the embedding, kept distinct. -/
inductive ErrO where
  | fuel
  | msg (m : BStr)
deriving DecidableEq

/-- A scope chain of the minimal draft: the current frame first, then the
ancestor frames (Scope.parent chain of src/src/eval.rs). -/
structure ScopeO where
  frames : List (List (BStr × ValO))

/-- Assoc-list lookup, modelling HashMap get. -/
def alook {α : Type} : List (BStr × α) → BStr → Option α
  | [], _ => Option.none
  | (k0, v) :: rest, k => if k = k0 then some v else alook rest k

/-- Scope.lookup of src/src/eval.rs: search the current frame, then the
parents; error if the name is nowhere. -/
def lookupO (s : ScopeO) (k : BStr) : Except ErrO ValO :=
  go s.frames
where
  go : List (List (BStr × ValO)) → Except ErrO ValO
    | [] => .error (.msg (msgVarNotExist k))
    | f :: rest =>
      match alook f k with
      | some v => .ok v
      | Option.none => go rest

/-- Evaluate a list of expressions left to right into a value list, the
argument loop of call in src/src/eval.rs (for idx in 1..exprs.len()). -/
def seqEvalO (f : ExprO → Except ErrO ValO) : List ExprO → Except ErrO (List ValO)
  | [] => .ok []
  | e :: rest =>
    match f e with
    | .error err => .error err
    | .ok v =>
      match seqEvalO f rest with
      | .error err => .error err
      | .ok vs => .ok (v :: vs)

/-- Evaluate a list of expressions in order and return the last value
(None when empty): the Quote body loop of call in src/src/eval.rs. -/
def seqRunO (f : ExprO → Except ErrO ValO) : List ExprO → Except ErrO ValO
  | [] => .ok .none
  | [e] => f e
  | e :: rest =>
    match f e with
    | .error err => .error err
    | .ok _ => seqRunO f rest

/-- eval of src/src/eval.rs, with fuel for the non-structural recursion
through called Quote bodies.  The Call branch is the call function of
src/src/eval.rs lines 80 to 104: it first evaluates children 1.. into the
argument vector, and only afterwards evaluates children 0 to obtain the
callee, then dispatches on the callee. -/
def evalO (ft : FTabO) : Nat → ExprO → ScopeO → Except ErrO ValO
  | 0, _, _ => .error .fuel
  | fuel + 1, e, s =>
    match e with
    | .str str => .ok (.str str)
    | .num n => .ok (.num n)
    | .name n => lookupO s n
    | .quote q => .ok (.quote q)
    | .call exprs =>
      match exprs with
      | [] => .error (.msg msgCallEmpty)
      | head :: rest =>
        match seqEvalO (fun e2 => evalO ft fuel e2 s) rest with
        | .error err => .error err
        | .ok args =>
          match evalO ft fuel head s with
          | .error err => .error err
          | .ok fv =>
            match fv with
            | .func fid => .ok (ft fid args)
            | .quote body => seqRunO (fun e2 => evalO ft fuel e2 s) body
            | _ => .error (.msg msgNonFunction)

/-- The calling convention the claim describes (callee from children 0 first,
then the arguments): a second definition following the claim, for comparison
with evalO which follows the source. -/
def evalCalleeFirst (ft : FTabO) : Nat → ExprO → ScopeO → Except ErrO ValO
  | 0, _, _ => .error .fuel
  | fuel + 1, e, s =>
    match e with
    | .str str => .ok (.str str)
    | .num n => .ok (.num n)
    | .name n => lookupO s n
    | .quote q => .ok (.quote q)
    | .call exprs =>
      match exprs with
      | [] => .error (.msg msgCallEmpty)
      | head :: rest =>
        match evalCalleeFirst ft fuel head s with
        | .error err => .error err
        | .ok fv =>
          match seqEvalO (fun e2 => evalCalleeFirst ft fuel e2 s) rest with
          | .error err => .error err
          | .ok args =>
            match fv with
            | .func fid => .ok (ft fid args)
            | .quote body => seqRunO (fun e2 => evalCalleeFirst ft fuel e2 s) body
            | _ => .error (.msg msgNonFunction)

/-- A function table mapping every Func to the constant None function,
for concrete test inputs. -/
def ftab0 : FTabO := fun _ _ => ValO.none

/-- The empty scope (no frames). -/
def scope0 : ScopeO := ⟨[]⟩

/-- C1 counterexample: on (f x) with both names unbound, the evaluator of
src/src/eval.rs reports the unbound argument x, because it evaluates the
arguments before it evaluates children 0; the callee-first order the claim
describes would report the unbound callee f instead, and the two outcomes
differ. -/
theorem c1_counterexample :
    evalO ftab0 2 (ExprO.call [ExprO.name (strToB "f"), ExprO.name (strToB "x")]) scope0
        = .error (.msg (msgVarNotExist (strToB "x")))
    ∧ evalCalleeFirst ftab0 2 (ExprO.call [ExprO.name (strToB "f"), ExprO.name (strToB "x")]) scope0
        = .error (.msg (msgVarNotExist (strToB "f")))
    ∧ msgVarNotExist (strToB "x") ≠ msgVarNotExist (strToB "f") :=
  ⟨by rfl, by rfl, by decide⟩

/-- C1 amended: for every Call expression with a non-empty child list, the
evaluator first evaluates children 1.. left to right into the argument value
list, and only then evaluates children 0 to obtain the callee, before
dispatching on the callee; in particular an error while evaluating an argument
surfaces even when the callee expression would itself fail. -/
theorem c1_args_before_callee (ft : FTabO) (fuel : Nat) (head : ExprO) (rest : List ExprO)
    (s : ScopeO) :
    (∀ err, seqEvalO (fun e => evalO ft fuel e s) rest = .error err →
      evalO ft (fuel + 1) (.call (head :: rest)) s = .error err)
    ∧ (∀ args, seqEvalO (fun e => evalO ft fuel e s) rest = .ok args →
        evalO ft (fuel + 1) (.call (head :: rest)) s =
          match evalO ft fuel head s with
          | .error err => .error err
          | .ok (ValO.func fid) => .ok (ft fid args)
          | .ok (ValO.quote body) => seqRunO (fun e2 => evalO ft fuel e2 s) body
          | .ok _ => .error (.msg msgNonFunction)) := by
  constructor
  · intro err harg
    simp only [evalO, harg]
  · intro args harg
    simp only [evalO, harg]
    cases hev : evalO ft fuel head s with
    | error e => rfl
    | ok fv => cases fv <;> rfl

/-- Witness for c1_args_before_callee at a concrete input: the argument
lookup error of x preempts everything else, even though the callee
expression (the literal 1) is not callable. -/
theorem c1_args_before_callee_witness :
    evalO ftab0 2 (ExprO.call [ExprO.num 1, ExprO.name (strToB "x")]) scope0
      = .error (.msg (msgVarNotExist (strToB "x"))) :=
  (c1_args_before_callee ftab0 1 (ExprO.num 1) [ExprO.name (strToB "x")] scope0).1
    (.msg (msgVarNotExist (strToB "x"))) (by rfl)

end OldDraft

/-!
The richer draft: stdlib.rs, ast.rs, dotlib.rs and iolib.rs import an eval
module (ValRef with Bool, List, Dict, Lambda, Lazy and Port variants, Scope
with shallow and deep operations, StackTrace) that is not among the provided
sources; those parts are modelled from the spec where needed.
-/

/-- Model of the IEEE-754 double payload of Number values, restricted to the
structure the verified operations inspect: every finite double is an exact
rational; infinities and NaN are explicit.  The sign of zero is not modelled
(IEEE equality identifies plus and minus zero) and NaN payloads collapse. -/
inductive F64 where
  | num (q : ℚ)
  | inf
  | negInf
  | nan
deriving DecidableEq

/-- IEEE-754 double equality: NaN is unequal to everything, itself included. -/
def F64.ieeeEq : F64 → F64 → Bool
  | .num a, .num b => decide (a = b)
  | .inf, .inf => true
  | .negInf, .negInf => true
  | _, _ => false

/-- The Rust cast (f64 as usize): truncate toward zero, clamp to the usize
range, NaN to zero. -/
def F64.toUsize : F64 → Nat
  | .num q => if q < 0 then 0 else min q.floor.toNat (2 ^ 64 - 1)
  | .inf => 2 ^ 64 - 1
  | .negInf => 0
  | .nan => 0

/-- Arity error message (spec section 7). -/
def msgNotEnoughArgs : BStr := strToB "Not enough arguments"

/-- Arity error message (spec section 7). -/
def msgTooManyArgs : BStr := strToB "Too many arguments"

/-- Type error message of get_string (spec section 7). -/
def msgExpectedString : BStr := strToB "Expected string"

/-- Type error message of get_number (spec section 7). -/
def msgExpectedNumber : BStr := strToB "Expected number"

/-- Type error message of get_list (spec section 7). -/
def msgExpectedList : BStr := strToB "Expected list"

/-- Index error message of the mutating list operators (stdlib.rs). -/
def msgIndexOOB : BStr := strToB "Index out of bounds"

/-- Error message of lib_mutate when the name is not in the current frame
(stdlib.rs line 585). -/
def msgVarNotExistScope (name : BStr) : BStr :=
  msgVarNotExist name ++ strToB " in this scope"

/-- Fuel exhaustion marker, an artifact of the embedding only. -/
def msgFuel : BStr := strToB "out of fuel"

/-- Marker for a dangling container handle, unreachable for heaps produced by
the interpreter (the Rc guarantees every live handle points at a live cell). -/
def msgBadHandle : BStr := strToB "dangling handle"

/-!
Canonical maps: HashMap of the sources is modelled as an association list
kept in a canonical key-sorted order, so that observably equal maps are equal
lists.  Keys are byte strings ordered lexicographically.
-/

/-- Lexicographic order on byte strings. -/
def keyLt : BStr → BStr → Bool
  | [], [] => false
  | [], _ :: _ => true
  | _ :: _, [] => false
  | a :: arest, b :: brest =>
    if a < b then true else if b < a then false else keyLt arest brest

/-- Map lookup. -/
def mGet {α : Type} : List (BStr × α) → BStr → Option α
  | [], _ => Option.none
  | (k0, v) :: rest, k => if k = k0 then some v else mGet rest k

/-- Map removal: drop every entry with the key. -/
def mDel {α : Type} (m : List (BStr × α)) (k : BStr) : List (BStr × α) :=
  m.filter (fun p => decide (p.1 ≠ k))

/-- Sorted insertion of an entry assumed absent. -/
def mIns {α : Type} : List (BStr × α) → BStr → α → List (BStr × α)
  | [], k, v => [(k, v)]
  | (k0, v0) :: rest, k, v =>
    if keyLt k k0 then (k, v) :: (k0, v0) :: rest else (k0, v0) :: mIns rest k v

/-- Map update: remove the key, insert the new entry at its sorted place. -/
def mPut {α : Type} (m : List (BStr × α)) (k : BStr) (v : α) : List (BStr × α) :=
  mIns (mDel m k) k v

theorem mDel_mDel {α : Type} (m : List (BStr × α)) (k : BStr) :
    mDel (mDel m k) k = mDel m k := by
  simp [mDel, List.filter_filter]

theorem mPut_mDel {α : Type} (m : List (BStr × α)) (k : BStr) (v : α) :
    mPut (mDel m k) k v = mPut m k v := by
  simp [mPut, mDel_mDel]

theorem mGet_mIns_self {α : Type} (l : List (BStr × α)) (k : BStr) (v : α)
    (hab : ∀ p ∈ l, p.1 ≠ k) : mGet (mIns l k v) k = some v := by
  induction l with
  | nil => simp [mIns, mGet]
  | cons p rest ih =>
    obtain ⟨k0, v0⟩ := p
    rw [mIns]
    by_cases hlt : keyLt k k0 = true
    · simp [hlt, mGet]
    · have hk0 : k ≠ k0 := fun he => (hab (k0, v0) (by simp) (by simp [he.symm])).elim
      simp only [hlt, if_false, Bool.false_eq_true]
      rw [mGet]
      simp only [hk0, if_false]
      exact ih (fun p hp => hab p (by simp [hp]))

theorem mGet_mPut_self {α : Type} (m : List (BStr × α)) (k : BStr) (v : α) :
    mGet (mPut m k v) k = some v := by
  refine mGet_mIns_self (mDel m k) k v ?_
  intro p hp
  have := List.of_mem_filter hp
  simpa using this

namespace EqModel

/-!
Model of the equality used by the == operator (lib_equals of stdlib.rs).
lib_equals delegates each pairwise comparison to ValRef::equals, which lives
in the missing eval module; ValRef::equals is modelled from the spec over a
tree of the comparable structure of values.
-/

mutual
/-- The comparable structure of a ValRef: None, Bool, Number, String, List
and Dict are compared structurally; every other variant (Block, Func, Lambda,
Binding, Lazy, Port) compares by shared-instance identity, collapsed here
into an identity token.  Cyclic containers (constructible by mutation) have
no tree form and are outside this model. -/
inductive EqVal where
  | none
  | bool (b : Bool)
  | number (n : F64)
  | str (s : BStr)
  | list (xs : EqList)
  | dict (xs : EqDict)
  | other (id : Nat)

/-- Contents of a List value. -/
inductive EqList where
  | nil
  | cons (hd : EqVal) (tl : EqList)

/-- Contents of a Dict value, in the canonical key-sorted order that models
the HashMap; with sorted unique keys, map equality is pointwise equality of
the entry lists. -/
inductive EqDict where
  | nil
  | cons (k : BStr) (v : EqVal) (tl : EqDict)
end

mutual
/-- Modelled from the spec: ValRef::equals of the richer draft (its eval
module is not among the provided sources).  Structural and recursive on
None, Bool, Number, String, List and Dict; other variants compare by
identity; Number comparison is IEEE double equality, so NaN is unequal to
itself. -/
def equalsV : EqVal → EqVal → Bool
  | .none, .none => true
  | .bool a, .bool b => decide (a = b)
  | .number a, .number b => a.ieeeEq b
  | .str a, .str b => decide (a = b)
  | .list a, .list b => equalsL a b
  | .dict a, .dict b => equalsD a b
  | .other a, .other b => decide (a = b)
  | _, _ => false

/-- Elementwise recursive equality of list contents. -/
def equalsL : EqList → EqList → Bool
  | .nil, .nil => true
  | .cons x xs, .cons y ys => equalsV x y && equalsL xs ys
  | _, _ => false

/-- Pointwise recursive equality of canonical (key-sorted) dict contents. -/
def equalsD : EqDict → EqDict → Bool
  | .nil, .nil => true
  | .cons k1 v1 t1, .cons k2 v2 t2 => decide (k1 = k2) && equalsV v1 v2 && equalsD t1 t2
  | _, _ => false
end

/-- lib_equals of src/src/stdlib.rs lines 228 to 240: with zero or one
argument the result is true; otherwise every adjacent pair must be equal
under ValRef::equals. -/
def libEquals : List EqVal → Bool
  | [] => true
  | [_] => true
  | a :: b :: rest => equalsV a b && libEquals (b :: rest)

mutual
/-- A value contains no NaN number anywhere. -/
def nanFreeV : EqVal → Bool
  | .number .nan => false
  | .list xs => nanFreeL xs
  | .dict xs => nanFreeD xs
  | _ => true

/-- No NaN in any element. -/
def nanFreeL : EqList → Bool
  | .nil => true
  | .cons x xs => nanFreeV x && nanFreeL xs

/-- No NaN in any entry value. -/
def nanFreeD : EqDict → Bool
  | .nil => true
  | .cons _ v t => nanFreeV v && nanFreeD t
end

mutual
theorem equalsV_refl : (v : EqVal) → nanFreeV v = true → equalsV v v = true
  | .none, _ => rfl
  | .bool b, _ => by simp [equalsV]
  | .number (.num q), _ => by simp [equalsV, F64.ieeeEq]
  | .number .inf, _ => rfl
  | .number .negInf, _ => rfl
  | .number .nan, h => by simp [nanFreeV] at h
  | .str s, _ => by simp [equalsV]
  | .list xs, h => by
      rw [equalsV]
      exact equalsL_refl xs (by simpa [nanFreeV] using h)
  | .dict xs, h => by
      rw [equalsV]
      exact equalsD_refl xs (by simpa [nanFreeV] using h)
  | .other i, _ => by simp [equalsV]

theorem equalsL_refl : (xs : EqList) → nanFreeL xs = true → equalsL xs xs = true
  | .nil, _ => rfl
  | .cons x xs, h => by
      rw [equalsL]
      have hx : nanFreeV x = true := by
        have := h; simp [nanFreeL] at this; exact this.1
      have hxs : nanFreeL xs = true := by
        have := h; simp [nanFreeL] at this; exact this.2
      simp [equalsV_refl x hx, equalsL_refl xs hxs]

theorem equalsD_refl : (xs : EqDict) → nanFreeD xs = true → equalsD xs xs = true
  | .nil, _ => rfl
  | .cons k v t, h => by
      rw [equalsD]
      have hv : nanFreeV v = true := by
        have := h; simp [nanFreeD] at this; exact this.1
      have ht : nanFreeD t = true := by
        have := h; simp [nanFreeD] at this; exact this.2
      simp [equalsV_refl v hv, equalsD_refl t ht]
end

mutual
theorem equalsV_symm : (a b : EqVal) → equalsV a b = equalsV b a
  | .none, .none => rfl
  | .bool a, .bool b => by simp [equalsV, decide_eq_decide]; exact eq_comm
  | .number a, .number b => by
      cases a <;> cases b <;> simp [equalsV, F64.ieeeEq, decide_eq_decide] <;> exact eq_comm
  | .str a, .str b => by simp [equalsV, decide_eq_decide]; exact eq_comm
  | .list a, .list b => by rw [equalsV, equalsV]; exact equalsL_symm a b
  | .dict a, .dict b => by rw [equalsV, equalsV]; exact equalsD_symm a b
  | .other a, .other b => by simp [equalsV, decide_eq_decide]; exact eq_comm
  | .none, .bool _ => rfl
  | .none, .number _ => rfl
  | .none, .str _ => rfl
  | .none, .list _ => rfl
  | .none, .dict _ => rfl
  | .none, .other _ => rfl
  | .bool _, .none => rfl
  | .bool _, .number _ => rfl
  | .bool _, .str _ => rfl
  | .bool _, .list _ => rfl
  | .bool _, .dict _ => rfl
  | .bool _, .other _ => rfl
  | .number _, .none => rfl
  | .number _, .bool _ => rfl
  | .number _, .str _ => rfl
  | .number _, .list _ => rfl
  | .number _, .dict _ => rfl
  | .number _, .other _ => rfl
  | .str _, .none => rfl
  | .str _, .bool _ => rfl
  | .str _, .number _ => rfl
  | .str _, .list _ => rfl
  | .str _, .dict _ => rfl
  | .str _, .other _ => rfl
  | .list _, .none => rfl
  | .list _, .bool _ => rfl
  | .list _, .number _ => rfl
  | .list _, .str _ => rfl
  | .list _, .dict _ => rfl
  | .list _, .other _ => rfl
  | .dict _, .none => rfl
  | .dict _, .bool _ => rfl
  | .dict _, .number _ => rfl
  | .dict _, .str _ => rfl
  | .dict _, .list _ => rfl
  | .dict _, .other _ => rfl
  | .other _, .none => rfl
  | .other _, .bool _ => rfl
  | .other _, .number _ => rfl
  | .other _, .str _ => rfl
  | .other _, .list _ => rfl
  | .other _, .dict _ => rfl

theorem equalsL_symm : (a b : EqList) → equalsL a b = equalsL b a
  | .nil, .nil => rfl
  | .nil, .cons _ _ => rfl
  | .cons _ _, .nil => rfl
  | .cons x xs, .cons y ys => by
      rw [equalsL, equalsL, equalsV_symm x y, equalsL_symm xs ys]

theorem equalsD_symm : (a b : EqDict) → equalsD a b = equalsD b a
  | .nil, .nil => rfl
  | .nil, .cons _ _ _ => rfl
  | .cons _ _ _, .nil => rfl
  | .cons k1 v1 t1, .cons k2 v2 t2 => by
      have hk : (decide (k1 = k2)) = (decide (k2 = k1)) := by
        simp only [decide_eq_decide]
        exact eq_comm
      rw [equalsD, equalsD, equalsV_symm v1 v2, equalsD_symm t1 t2, hk]
end

/-- C5 counterexample: a NaN Number value (producible in the language, for
example by dividing zero by zero) is unequal to itself under ==, so == is not
reflexive on every Number. -/
theorem c5_counterexample :
    libEquals [EqVal.number F64.nan, EqVal.number F64.nan] = false := by rfl

/-- C5 amended: == is reflexive on every value containing no NaN number, it
is symmetric on every pair of values, and on List and Dict it compares the
contents recursively. -/
theorem c5_amended :
    (∀ v : EqVal, nanFreeV v = true → libEquals [v, v] = true)
    ∧ (∀ a b : EqVal, libEquals [a, b] = libEquals [b, a])
    ∧ (∀ (x : EqVal) (xs : EqList) (y : EqVal) (ys : EqList),
        equalsV (.list (.cons x xs)) (.list (.cons y ys))
          = (equalsV x y && equalsV (.list xs) (.list ys)))
    ∧ (∀ (k : BStr) (v1 v2 : EqVal) (t1 t2 : EqDict),
        equalsV (.dict (.cons k v1 t1)) (.dict (.cons k v2 t2))
          = (equalsV v1 v2 && equalsD t1 t2)) := by
  refine ⟨?_, ?_, ?_, ?_⟩
  · intro v hv
    simp [libEquals, equalsV_refl v hv]
  · intro a b
    simp [libEquals, equalsV_symm a b]
  · intro x xs y ys
    rw [equalsV, equalsL, equalsV]
  · intro k v1 v2 t1 t2
    rw [equalsV, equalsD]
    simp

/-- Witness for c5_amended: reflexivity applied to a concrete nested list. -/
theorem c5_amended_witness :
    libEquals [EqVal.list (.cons (.number (.num 1)) (.cons (.str (strToB "a")) .nil)),
               EqVal.list (.cons (.number (.num 1)) (.cons (.str (strToB "a")) .nil))] = true :=
  c5_amended.1 (EqVal.list (.cons (.number (.num 1)) (.cons (.str (strToB "a")) .nil)))
    (by rfl)

end EqModel

namespace Rich

/-- Source location of the richer draft (src/src/ast.rs Location). -/
structure Loc where
  line : Nat
  column : Nat
  file : BStr
deriving DecidableEq

/-- The Expression enum of src/src/ast.rs: String, Number (f64), Lookup,
Call with a location, Quote with a location. -/
inductive ExprR where
  | str (s : BStr)
  | num (n : F64)
  | lookup (name : BStr)
  | call (children : List ExprR) (loc : Loc)
  | quote (children : List ExprR) (loc : Loc)

/-- The ValRef enum of the richer draft, as declared by the spec (section 3)
and used by stdlib.rs, dotlib.rs and iolib.rs.  Shared mutable containers
(List, Dict, Port) and scopes are handles into an explicit heap; Func is an
index into an ambient table of native operators. -/
inductive Val where
  | none
  | bool (b : Bool)
  | number (n : F64)
  | str (s : BStr)
  | block (body : List ExprR)
  | list (h : Nat)
  | dict (h : Nat)
  | func (fid : Nat)
  | lambda (params : List BStr) (body : List ExprR) (captured : Nat)
  | binding (bound : List Val) (callee : Val)
  | lazyV (inner : Val)
  | protectedLazy (inner : Val)
  | port (h : Nat)

/-- StackTrace of the richer draft (spec section 3): a value payload plus the
locations appended while unwinding. -/
structure STrace where
  message : Val
  trace : List Loc

/-- StackTrace::from_val. -/
def STrace.fromVal (v : Val) : STrace := ⟨v, []⟩

/-- StackTrace::from_str and from_string: a byte-string payload. -/
def STrace.fromB (s : BStr) : STrace := ⟨.str s, []⟩

/-- The explicit heap holding every shared mutable cell: list contents with a
ghost reference count, dict contents (canonical key-sorted maps) with a ghost
reference count, and scope frames (map plus optional parent handle).  The
reference counts are ghost state standing for Rc::strong_count; the verified
operations only read them, as the source does. -/
structure Heap where
  lists : List (List Val × Nat)
  dicts : List (List (BStr × Val) × Nat)
  frames : List (List (BStr × Val) × Option Nat)

/-- Replace the contents and count of a list cell. -/
def Heap.setListC (h : Heap) (i : Nat) (xs : List Val) (rc : Nat) : Heap :=
  { h with lists := h.lists.set i (xs, rc) }

/-- Allocate a fresh list cell with reference count one (Rc::new), returning
the new handle. -/
def Heap.allocListC (h : Heap) (xs : List Val) : Heap × Nat :=
  ({ h with lists := h.lists ++ [(xs, 1)] }, h.lists.length)

/-- Native operator table: a Func receives the argument values and the
scope handle of the caller, may mutate the heap, and returns a value or an error
(the FuncResult type of the richer draft). -/
abbrev FTab := Nat → List Val → Heap → Nat → Heap × Except STrace Val

/-- get_list of the missing eval module: the list handle, or the type error
the spec names. -/
def getListArg : Val → Except STrace Nat
  | .list lh => .ok lh
  | _ => .error (STrace.fromB msgExpectedList)

/-- get_number of the missing eval module. -/
def getNumberArg : Val → Except STrace F64
  | .number n => .ok n
  | _ => .error (STrace.fromB msgExpectedNumber)

/-- get_string of the missing eval module. -/
def getStringArg : Val → Except STrace BStr
  | .str s => .ok s
  | _ => .error (STrace.fromB msgExpectedString)

/-- lib_list_push of src/src/stdlib.rs lines 1037 to 1055: the first argument
must be a list; when its reference count is one the contents are extended in
place and the same handle is returned, otherwise the contents are cloned into
a fresh cell, the clone is extended, and the fresh handle is returned.  The
remaining arguments are the values to append, in order.  The scope of the caller
is returned unchanged by the source, so it is not a parameter here. -/
def libListPush (args : List Val) (h : Heap) : Heap × Except STrace Val :=
  match args with
  | [] => (h, .error (STrace.fromB msgNotEnoughArgs))
  | a :: vals =>
    match getListArg a with
    | .error e => (h, .error e)
    | .ok lh =>
      match h.lists[lh]? with
      | Option.none => (h, .error (STrace.fromB msgBadHandle))
      | some (xs, rc) =>
        if rc = 1 then (h.setListC lh (xs ++ vals) rc, .ok (.list lh))
        else
          let alloc := h.allocListC (xs ++ vals)
          (alloc.1, .ok (.list alloc.2))

/-- lib_list_insert of src/src/stdlib.rs lines 1098 to 1116: list, then the
index (a number cast to usize), then the values; an index at or past the
length is rejected with the index error before anything is written; otherwise
clone-on-share, then splice the values in at the index. -/
def libListInsert (args : List Val) (h : Heap) : Heap × Except STrace Val :=
  match args with
  | [] => (h, .error (STrace.fromB msgNotEnoughArgs))
  | a :: rest =>
    match getListArg a with
    | .error e => (h, .error e)
    | .ok lh =>
      match rest with
      | [] => (h, .error (STrace.fromB msgNotEnoughArgs))
      | b :: vals =>
        match getNumberArg b with
        | .error e => (h, .error e)
        | .ok nf =>
          let idx := nf.toUsize
          match h.lists[lh]? with
          | Option.none => (h, .error (STrace.fromB msgBadHandle))
          | some (xs, rc) =>
            if xs.length ≤ idx then (h, .error (STrace.fromB msgIndexOOB))
            else
              let contents := xs.take idx ++ vals ++ xs.drop idx
              if rc = 1 then (h.setListC lh contents rc, .ok (.list lh))
              else
                let alloc := h.allocListC contents
                (alloc.1, .ok (.list alloc.2))

/-- The core of lib_list_remove once the handle, start and end indices are in
hand: the source checks only that the start index is in bounds, then calls
Vec::splice with the range start..end.  Vec::splice panics when the range
start exceeds its end or the end exceeds the vector length; the panic is the
outer Option.none.  Rust aborts there, so no heap is returned. -/
def listRemoveCore (h : Heap) (lh idx endv : Nat) : Option (Heap × Except STrace Val) :=
  match h.lists[lh]? with
  | Option.none => some (h, .error (STrace.fromB msgBadHandle))
  | some (xs, rc) =>
    if xs.length ≤ idx then some (h, .error (STrace.fromB msgIndexOOB))
    else if idx ≤ endv ∧ endv ≤ xs.length then
      let contents := xs.take idx ++ xs.drop endv
      if rc = 1 then some (h.setListC lh contents rc, .ok (.list lh))
      else
        let alloc := h.allocListC contents
        some (alloc.1, .ok (.list alloc.2))
    else Option.none

/-- lib_list_remove of src/src/stdlib.rs lines 1137 to 1159: list, start
index, optional end index (default start plus one); extra arguments beyond
the end index are ignored (the source never calls done on the cursor). -/
def libListRemove (args : List Val) (h : Heap) : Option (Heap × Except STrace Val) :=
  match args with
  | [] => some (h, .error (STrace.fromB msgNotEnoughArgs))
  | a :: rest =>
    match getListArg a with
    | .error e => some (h, .error e)
    | .ok lh =>
      match rest with
      | [] => some (h, .error (STrace.fromB msgNotEnoughArgs))
      | b :: rest2 =>
        match getNumberArg b with
        | .error e => some (h, .error e)
        | .ok nf =>
          match rest2 with
          | [] => listRemoveCore h lh nf.toUsize (nf.toUsize + 1)
          | c :: _ =>
            match getNumberArg c with
            | .error e => some (h, .error e)
            | .ok ef => listRemoveCore h lh nf.toUsize ef.toUsize

/-- C2: for every list cell whose reference count exceeds one, list-push
allocates a fresh cell holding the extended contents, returns the fresh
handle (distinct from the original), and leaves the contents and count of the
original cell untouched. -/
theorem c2_copy_on_share (h : Heap) (lh : Nat) (xs : List Val) (rc : Nat)
    (vals : List Val) (hget : h.lists[lh]? = some (xs, rc)) (hrc : 1 < rc) :
    libListPush (Val.list lh :: vals) h
        = ({ h with lists := h.lists ++ [(xs ++ vals, 1)] }, .ok (.list h.lists.length))
    ∧ h.lists.length ≠ lh
    ∧ ({ h with lists := h.lists ++ [(xs ++ vals, 1)] } : Heap).lists[lh]? = some (xs, rc)
    ∧ ({ h with lists := h.lists ++ [(xs ++ vals, 1)] } : Heap).lists[h.lists.length]?
        = some (xs ++ vals, 1) := by
  have hlt : lh < h.lists.length := (List.getElem?_eq_some.mp hget).1
  refine ⟨?_, ?_, ?_, ?_⟩
  · rw [libListPush]
    simp only [getListArg, hget]
    have : ¬ rc = 1 := by omega
    simp [this, Heap.allocListC]
  · omega
  · show (h.lists ++ [(xs ++ vals, 1)])[lh]? = some (xs, rc)
    rw [List.getElem?_append]
    simp [hlt, hget]
  · exact List.getElem?_concat_length ..

/-- Witness for c2_copy_on_share: a two-element list with reference count
two; pushing 3 leaves the original cell unchanged and returns handle 1. -/
theorem c2_copy_on_share_witness :
    libListPush (Val.list 0 :: [Val.number (F64.num 3)])
        ⟨[([Val.number (F64.num 1), Val.number (F64.num 2)], 2)], [], []⟩
      = (⟨[([Val.number (F64.num 1), Val.number (F64.num 2)], 2),
           ([Val.number (F64.num 1), Val.number (F64.num 2), Val.number (F64.num 3)], 1)],
          [], []⟩, .ok (.list 1)) :=
  (c2_copy_on_share ⟨[([Val.number (F64.num 1), Val.number (F64.num 2)], 2)], [], []⟩ 0
    [Val.number (F64.num 1), Val.number (F64.num 2)] 2 [Val.number (F64.num 3)]
    (by rfl) (by omega)).1

/-- C9: lib_list_insert rejects every index at or past the list length with
the index error, before any mutation; in particular the index equal to the
length (one past the last element), so list-insert cannot append. -/
theorem c9_insert_rejects_end (h : Heap) (lh : Nat) (xs : List Val) (rc : Nat)
    (nf : F64) (vals : List Val) (hget : h.lists[lh]? = some (xs, rc))
    (hidx : xs.length ≤ nf.toUsize) :
    libListInsert (Val.list lh :: Val.number nf :: vals) h
      = (h, .error (STrace.fromB msgIndexOOB)) := by
  rw [libListInsert]
  simp only [getListArg, getNumberArg, hget]
  simp [hidx]

/-- Witness for c9_insert_rejects_end: inserting at index 2 into a
two-element list (appending at the end) is rejected. -/
theorem c9_insert_rejects_end_witness :
    libListInsert [Val.list 0, Val.number (F64.num 2), Val.number (F64.num 9)]
        ⟨[([Val.number (F64.num 1), Val.number (F64.num 2)], 1)], [], []⟩
      = (⟨[([Val.number (F64.num 1), Val.number (F64.num 2)], 1)], [], []⟩,
         .error (STrace.fromB msgIndexOOB)) :=
  c9_insert_rejects_end ⟨[([Val.number (F64.num 1), Val.number (F64.num 2)], 1)], [], []⟩ 0
    [Val.number (F64.num 1), Val.number (F64.num 2)] 1 (F64.num 2) [Val.number (F64.num 9)]
    (by rfl) (by decide)

/-- The heap of the C8 failing input: one list cell holding 1, 2, 3. -/
def heapC8 : Heap :=
  ⟨[([Val.number (F64.num 1), Val.number (F64.num 2), Val.number (F64.num 3)], 1)], [], []⟩

/-- C8: the claim is right and the code is wrong.  On the failing input
(list-remove l 0 5) with l of length 3, the start index passes the only
bounds check in lib_list_remove, and Vec::splice is reached with the range
0..5 whose end exceeds the length: the process panics (the Option.none
outcome) instead of failing with the Index out of bounds StackTrace the claim
and the spec describe.  The second conjunct shows the check that does exist:
a start index out of range is reported as that StackTrace. -/
theorem c8_remove_panics :
    libListRemove [Val.list 0, Val.number (F64.num 0), Val.number (F64.num 5)] heapC8
        = Option.none
    ∧ libListRemove [Val.list 0, Val.number (F64.num 5), Val.number (F64.num 6)] heapC8
        = some (heapC8, .error (STrace.fromB msgIndexOOB)) := by
  constructor
  · rfl
  · rfl

/-!
Scopes.  The eval module of the richer draft is not among the provided
sources; its Scope operations are modelled from the spec (sections 3 and
4.4): frames are shared by reference, insert always writes the current
frame, lookup_shallow reads only the current frame, lookup walks the parent
chain, and a write is visible through every handle to the frame.
-/

/-- Modelled from the spec: Scope::lookup_shallow considers only the current
frame. -/
def lookupShallow (h : Heap) (sc : Nat) (k : BStr) : Option Val :=
  match h.frames[sc]? with
  | some (m, _) => mGet m k
  | Option.none => Option.none

/-- Modelled from the spec: Scope::has_shallow, the shallow test lib_set
uses. -/
def hasShallow (h : Heap) (sc : Nat) (k : BStr) : Bool :=
  (lookupShallow h sc k).isSome

/-- Modelled from the spec: Scope::insert writes the current frame in place
(scope handles are shared by reference, spec section 4.4). -/
def insertShallow (h : Heap) (sc : Nat) (k : BStr) (v : Val) : Heap :=
  match h.frames[sc]? with
  | some (m, p) => { h with frames := h.frames.set sc (mPut m k v, p) }
  | Option.none => h

/-- Modelled from the spec: Scope::maybe_inplace_erase removes the name from
the current frame (lib_mutate removes the name bound by the caller for the duration of
the callback). -/
def eraseShallow (h : Heap) (sc : Nat) (k : BStr) : Heap :=
  match h.frames[sc]? with
  | some (m, p) => { h with frames := h.frames.set sc (mDel m k, p) }
  | Option.none => h

/-- Modelled from the spec: Scope::lookup walks the parent chain until the
name is found or the root is passed.  The fuel bounds the walk; the chains
the interpreter builds are acyclic, so a fuel of the frame count is enough. -/
def lookupDeep (h : Heap) (k : BStr) : Nat → Nat → Option Val
  | 0, _ => Option.none
  | fuel + 1, sc =>
    match h.frames[sc]? with
    | Option.none => Option.none
    | some (m, par) =>
      match mGet m k with
      | some v => some v
      | Option.none =>
        match par with
        | some ps => lookupDeep h k fuel ps
        | Option.none => Option.none

/-- Modelled from the spec: Scope::subscope allocates a fresh empty frame
whose parent is the given scope. -/
def subscope (h : Heap) (sc : Nat) : Heap × Nat :=
  ({ h with frames := h.frames ++ [([], some sc)] }, h.frames.length)

/-- Bind lambda parameters to arguments in order, in the given frame. -/
def bindParams : Heap → Nat → List BStr → List Val → Heap
  | h, _, [], _ => h
  | h, _, _ :: _, [] => h
  | h, sc, p :: ps, a :: avs => bindParams (insertShallow h sc p a) sc ps avs

mutual
/-- Modelled from the spec (section 4.3): eval of the richer draft.  String
and Number evaluate to themselves, Lookup walks the scope chain and forces
lazy values, Quote becomes a Block, Call evaluates children 0 to the callee,
then children 1.. left to right, applies, and appends its location to a
failing StackTrace. -/
def evalR (ft : FTab) : Nat → ExprR → Heap → Nat → Heap × Except STrace Val
  | 0, _, h, _ => (h, .error (STrace.fromB msgFuel))
  | fuel + 1, e, h, sc =>
    match e with
    | .str s => (h, .ok (.str s))
    | .num n => (h, .ok (.number n))
    | .lookup name =>
      match lookupDeep h name (h.frames.length + 1) sc with
      | Option.none => (h, .error (STrace.fromB (msgVarNotExist name)))
      | some v => forceVal ft fuel v h sc
    | .quote children _ => (h, .ok (.block children))
    | .call children loc =>
      match children with
      | [] => (h, .error (STrace.fromB msgCallEmpty))
      | head :: rest =>
        match evalR ft fuel head h sc with
        | (h1, .error e1) => (h1, .error e1)
        | (h1, .ok callee) =>
          match evalArgsR ft fuel rest h1 sc with
          | (h2, .error e2) => (h2, .error e2)
          | (h2, .ok args) =>
            match callV ft fuel callee args h2 sc with
            | (h3, .error st) => (h3, .error ⟨st.message, st.trace ++ [loc]⟩)
            | (h3, .ok v) => (h3, .ok v)
termination_by structural fuel e h sc => fuel

/-- Modelled from the spec: the argument loop of a Call, left to right,
threading the heap. -/
def evalArgsR (ft : FTab) : Nat → List ExprR → Heap → Nat → Heap × Except STrace (List Val)
  | 0, _, h, _ => (h, .error (STrace.fromB msgFuel))
  | _ + 1, [], h, _ => (h, .ok [])
  | fuel + 1, e :: rest, h, sc =>
    match evalR ft fuel e h sc with
    | (h1, .error er) => (h1, .error er)
    | (h1, .ok v) =>
      match evalArgsR ft fuel rest h1 sc with
      | (h2, .error er) => (h2, .error er)
      | (h2, .ok vs) => (h2, .ok (v :: vs))
termination_by structural fuel es h sc => fuel

/-- Modelled from the spec: evaluate a body in order, returning the last
value, or None for an empty body. -/
def evalSeqR (ft : FTab) : Nat → List ExprR → Heap → Nat → Heap × Except STrace Val
  | 0, _, h, _ => (h, .error (STrace.fromB msgFuel))
  | _ + 1, [], h, _ => (h, .ok .none)
  | fuel + 1, [e], h, sc => evalR ft fuel e h sc
  | fuel + 1, e :: rest, h, sc =>
    match evalR ft fuel e h sc with
    | (h1, .error er) => (h1, .error er)
    | (h1, .ok _) => evalSeqR ft fuel rest h1 sc
termination_by structural fuel es h sc => fuel

/-- Modelled from the spec: a looked-up Lazy (or stored ProtectedLazy) is
called with zero arguments and the result replaces it, recursively. -/
def forceVal (ft : FTab) : Nat → Val → Heap → Nat → Heap × Except STrace Val
  | 0, _, h, _ => (h, .error (STrace.fromB msgFuel))
  | fuel + 1, v, h, sc =>
    match v with
    | .lazyV inner =>
      match callV ft fuel inner [] h sc with
      | (h1, .error er) => (h1, .error er)
      | (h1, .ok r) => forceVal ft fuel r h1 sc
    | .protectedLazy inner =>
      match callV ft fuel inner [] h sc with
      | (h1, .error er) => (h1, .error er)
      | (h1, .ok r) => forceVal ft fuel r h1 sc
    | other => (h, .ok other)
termination_by structural fuel v h sc => fuel

/-- Modelled from the spec (section 4.3): call dispatch on the callee
variant.  Func applies the native operator; Lambda checks arity, binds the
parameters in a fresh subscope of the captured scope and runs the body;
Block runs its body in the scope of the caller ignoring extras (the
choice); List and Dict index with one argument, out of range or absent
giving None; Binding prepends its bound arguments; everything remaining is
not callable. -/
def callV (ft : FTab) : Nat → Val → List Val → Heap → Nat → Heap × Except STrace Val
  | 0, _, _, h, _ => (h, .error (STrace.fromB msgFuel))
  | fuel + 1, callee, args, h, sc =>
    match callee with
    | .func fid => ft fid args h sc
    | .lambda params body captured =>
      if args.length < params.length then (h, .error (STrace.fromB msgNotEnoughArgs))
      else if params.length < args.length then (h, .error (STrace.fromB msgTooManyArgs))
      else
        let sub := subscope h captured
        evalSeqR ft fuel body (bindParams sub.1 sub.2 params args) sub.2
    | .block body => evalSeqR ft fuel body h sc
    | .list lh =>
      match args with
      | [iv] =>
        match iv with
        | .number nf =>
          match h.lists[lh]? with
          | Option.none => (h, .error (STrace.fromB msgBadHandle))
          | some (xs, _) => (h, .ok ((xs[nf.toUsize]?).getD .none))
        | _ => (h, .error (STrace.fromB msgExpectedNumber))
      | [] => (h, .error (STrace.fromB msgNotEnoughArgs))
      | _ => (h, .error (STrace.fromB msgTooManyArgs))
    | .dict dh =>
      match args with
      | [kv] =>
        match kv with
        | .str k =>
          match h.dicts[dh]? with
          | Option.none => (h, .error (STrace.fromB msgBadHandle))
          | some (m, _) => (h, .ok ((mGet m k).getD .none))
        | _ => (h, .error (STrace.fromB msgExpectedString))
      | [] => (h, .error (STrace.fromB msgNotEnoughArgs))
      | _ => (h, .error (STrace.fromB msgTooManyArgs))
    | .binding bound inner => callV ft fuel inner (bound ++ args) h sc
    | _ => (h, .error (STrace.fromB msgNonFunction))
termination_by structural fuel callee args h sc => fuel
end

/-- lib_set of src/src/stdlib.rs lines 534 to 552: for each name/value pair
in order, get_string the name, take the value, fail when has_shallow does
not find the name in the current frame, else insert into the current frame.
The heap is returned in every outcome: frames are shared by reference, so
writes made before a failure persist. -/
def libSet : List Val → Heap → Nat → Heap × Except STrace Val
  | [], h, _ => (h, .ok .none)
  | a :: rest, h, sc =>
    match getStringArg a with
    | .error e => (h, .error e)
    | .ok key =>
      match rest with
      | [] => (h, .error (STrace.fromB msgNotEnoughArgs))
      | v :: rest2 =>
        if hasShallow h sc key then libSet rest2 (insertShallow h sc key v) sc
        else (h, .error (STrace.fromB (msgVarNotExist key)))

/-- lib_mutate of src/src/stdlib.rs lines 576 to 603: at least two arguments;
the name must be bound in the current frame (lookup_shallow, else the
in-this-scope error); the name is erased for the duration of the call; the
callback is applied to the old value followed by the remaining arguments;
the result is reinserted under the name and returned. -/
def libMutate (ft : FTab) (fuel : Nat) (args : List Val) (h : Heap) (sc : Nat) :
    Heap × Except STrace Val :=
  match args with
  | [] => (h, .error (STrace.fromB msgNotEnoughArgs))
  | [_] => (h, .error (STrace.fromB msgNotEnoughArgs))
  | a :: f :: rest =>
    match getStringArg a with
    | .error e => (h, .error e)
    | .ok name =>
      match lookupShallow h sc name with
      | Option.none => (h, .error (STrace.fromB (msgVarNotExistScope name)))
      | some v =>
        match callV ft fuel f (v :: rest) (eraseShallow h sc name) sc with
        | (h2, .error e) => (h2, .error e)
        | (h2, .ok newVal) => (insertShallow h2 sc name newVal, .ok newVal)

/-- lib_try of src/src/stdlib.rs lines 828 to 839: exactly two arguments;
call the body with zero arguments in a fresh subscope of the calling scope;
on success pass the result through, on error call the catch callable in the
calling scope with the message value of the error as its only argument. -/
def libTry (ft : FTab) (fuel : Nat) (args : List Val) (h : Heap) (sc : Nat) :
    Heap × Except STrace Val :=
  match args with
  | [] => (h, .error (STrace.fromB msgNotEnoughArgs))
  | [_] => (h, .error (STrace.fromB msgNotEnoughArgs))
  | [tryBody, catchBody] =>
    let sub := subscope h sc
    match callV ft fuel tryBody [] sub.1 sub.2 with
    | (h2, .ok res) => (h2, .ok res)
    | (h2, .error err) => callV ft fuel catchBody [err.message] h2 sc
  | _ => (h, .error (STrace.fromB msgTooManyArgs))

/-- Little-endian decimal digits of a positive natural number; the fuel (at
least the digit count) makes the recursion structural. -/
def natDigitsRev : Nat → Nat → List Nat
  | 0, _ => []
  | fuel + 1, n => if n = 0 then [] else (n % 10) :: natDigitsRev fuel (n / 10)

/-- Decimal digits of a natural number as bytes, most significant first. -/
def natDigitsB (n : Nat) : BStr :=
  if n = 0 then [48] else ((natDigitsRev n n).reverse).map (fun d => d + 48)

/-- Decimal expansion of the fraction remainder/denominator, most
significant digit first, by long division; the fuel bounds the digit count
(1200 digits cover the finite decimal expansion of every IEEE double). -/
def fracDigitsN : Nat → Nat → Nat → BStr
  | 0, _, _ => []
  | fuel + 1, r, d =>
    if r = 0 then [] else ((r * 10 / d) + 48) :: fracDigitsN fuel (r * 10 % d) d

/-- Modelled from the spec: the display form of a Number (Rust prints finite
doubles as plain decimals, infinities as inf and NaN as NaN).  The integer
part of the magnitude is the numerator magnitude divided by the denominator,
the fractional part is the remainder over the denominator. -/
def f64Display : F64 → BStr
  | .nan => strToB "NaN"
  | .inf => strToB "inf"
  | .negInf => [45] ++ strToB "inf"
  | .num q =>
    (if q < 0 then [45] else [])
      ++ natDigitsB (q.num.natAbs / q.den)
      ++ (match fracDigitsN 1200 (q.num.natAbs % q.den) q.den with
          | [] => []
          | fr => 46 :: fr)

/-- Modelled from the spec: the display form of a value, used by lib_error
when joining several arguments.  The Display implementation of the richer
draft is not among the provided sources; the String case (raw bytes, the
only case any verified claim relies on) and the printable scalars follow the
spec, and the remaining variants get a neutral placeholder. -/
def valDisplay : Val → BStr
  | .none => strToB "none"
  | .bool true => strToB "true"
  | .bool false => strToB "false"
  | .number n => f64Display n
  | .str s => s
  | _ => strToB "(value)"

/-- Space-joined display forms (the multi-argument branch of lib_error). -/
def joinVals : List Val → BStr
  | [] => []
  | [v] => valDisplay v
  | v :: rest => valDisplay v ++ [32] ++ joinVals rest

/-- lib_error of src/src/stdlib.rs lines 790 to 813: zero arguments raise
with a None payload, one argument raises with that value itself as the
payload, several arguments raise with their space-joined stringification. -/
def libError (args : List Val) (h : Heap) : Heap × Except STrace Val :=
  match args with
  | [] => (h, .error (STrace.fromVal .none))
  | [v] => (h, .error (STrace.fromVal v))
  | _ => (h, .error (STrace.fromVal (.str (joinVals args))))

theorem lookupShallow_insert_self (h : Heap) (sc : Nat) (k : BStr) (v : Val)
    (m : List (BStr × Val)) (p : Option Nat) (hf : h.frames[sc]? = some (m, p)) :
    lookupShallow (insertShallow h sc k v) sc k = some v := by
  have hlt : sc < h.frames.length := (List.getElem?_eq_some.mp hf).1
  simp only [insertShallow, hf]
  simp only [lookupShallow, List.getElem?_set_self hlt]
  exact mGet_mPut_self m k v

theorem insertShallow_erase (h : Heap) (sc : Nat) (k : BStr) (v : Val) :
    insertShallow (eraseShallow h sc k) sc k v = insertShallow h sc k v := by
  cases hf : h.frames[sc]? with
  | none => simp [insertShallow, eraseShallow, hf]
  | some pr =>
    obtain ⟨m, p⟩ := pr
    have hlt : sc < h.frames.length := (List.getElem?_eq_some.mp hf).1
    simp only [eraseShallow, hf]
    simp only [insertShallow, List.getElem?_set_self hlt, hf]
    rw [List.set_set, mPut_mDel]

theorem hasShallow_frame (h : Heap) (sc : Nat) (k : BStr)
    (hk : hasShallow h sc k = true) :
    ∃ m p, h.frames[sc]? = some (m, p) := by
  unfold hasShallow lookupShallow at hk
  cases hf : h.frames[sc]? with
  | none => rw [hf] at hk; simp at hk
  | some pr =>
    obtain ⟨m, p⟩ := pr
    exact ⟨m, p, rfl⟩

theorem libSet_single (h : Heap) (sc : Nat) (key : BStr) (v : Val)
    (hk : hasShallow h sc key = true) :
    libSet [Val.str key, v] h sc = (insertShallow h sc key v, .ok .none) := by
  rw [libSet]
  simp only [getStringArg, hk, if_true]
  rfl

/-- The heap of the C3 and C4 counterexamples: frame 0 is the root and binds
x to 1, frame 1 is an empty child of frame 0. -/
def heapParentX : Heap :=
  ⟨[], [], [([(strToB "x", Val.number (F64.num 1))], Option.none), ([], some 0)]⟩

/-- C3 counterexample: with x bound only in the parent frame (deep lookup
resolves it), lib_set called in the child scope fails with the
variable-does-not-exist error, because it consults has_shallow, which looks
only at the current frame; the claim says it should update the nearest
owning frame instead. -/
theorem c3_counterexample :
    lookupDeep heapParentX (strToB "x") 3 1 = some (Val.number (F64.num 1))
    ∧ libSet [Val.str (strToB "x"), Val.number (F64.num 2)] heapParentX 1
        = (heapParentX, .error (STrace.fromB (msgVarNotExist (strToB "x")))) :=
  ⟨by rfl, by rfl⟩

/-- C3 amended: for every name/value pair given to set, set succeeds and
updates the current frame if and only if the name is bound in the current
frame; a binding in an ancestor frame alone does not count, and the error is
raised exactly when the current frame does not own the name. -/
theorem c3_set_shallow (h : Heap) (sc : Nat) (key : BStr) (v : Val) :
    (hasShallow h sc key = true →
      libSet [Val.str key, v] h sc = (insertShallow h sc key v, .ok .none)
      ∧ lookupShallow (insertShallow h sc key v) sc key = some v)
    ∧ (hasShallow h sc key = false →
      libSet [Val.str key, v] h sc = (h, .error (STrace.fromB (msgVarNotExist key)))) := by
  constructor
  · intro hk
    refine ⟨libSet_single h sc key v hk, ?_⟩
    obtain ⟨m, p, hf⟩ := hasShallow_frame h sc key hk
    exact lookupShallow_insert_self h sc key v m p hf
  · intro hk
    rw [libSet]
    simp only [getStringArg, hk]
    rfl

/-- Witness for c3_set_shallow: setting x in a scope whose current frame
binds it succeeds and writes the frame. -/
theorem c3_set_shallow_witness :
    libSet [Val.str (strToB "x"), Val.number (F64.num 2)]
        ⟨[], [], [([(strToB "x", Val.number (F64.num 1))], Option.none)]⟩ 0
      = (insertShallow ⟨[], [], [([(strToB "x", Val.number (F64.num 1))], Option.none)]⟩ 0
          (strToB "x") (Val.number (F64.num 2)), .ok .none) :=
  ((c3_set_shallow ⟨[], [], [([(strToB "x", Val.number (F64.num 1))], Option.none)]⟩ 0
    (strToB "x") (Val.number (F64.num 2))).1 (by rfl)).1

/-- C10: set applied to several pairs is not atomic on error.  Processing is
left to right; if the first name is owned by the current frame and the
second is not, the call fails with the error for the second name while the
heap it leaves behind already carries the replacement for the first pair,
which is not rolled back (the first conjunct returns the updated heap, the
second reads the new value back from it). -/
theorem c10_set_not_atomic (h : Heap) (sc : Nat) (k1 k2 : BStr) (v1 v2 : Val)
    (hk1 : hasShallow h sc k1 = true)
    (hk2 : hasShallow (insertShallow h sc k1 v1) sc k2 = false) :
    libSet [Val.str k1, v1, Val.str k2, v2] h sc
        = (insertShallow h sc k1 v1, .error (STrace.fromB (msgVarNotExist k2)))
    ∧ lookupShallow (insertShallow h sc k1 v1) sc k1 = some v1 := by
  constructor
  · rw [libSet]
    simp only [getStringArg, hk1, if_true]
    rw [libSet]
    simp only [getStringArg, hk2]
    rfl
  · obtain ⟨m, p, hf⟩ := hasShallow_frame h sc k1 hk1
    exact lookupShallow_insert_self h sc k1 v1 m p hf

/-- Witness for c10_set_not_atomic: x is bound, y is not; after the failing
(set x 2 y 3) the returned heap already maps x to 2. -/
theorem c10_set_not_atomic_witness :
    libSet [Val.str (strToB "x"), Val.number (F64.num 2),
            Val.str (strToB "y"), Val.number (F64.num 3)]
        ⟨[], [], [([(strToB "x", Val.number (F64.num 1))], Option.none)]⟩ 0
      = (insertShallow ⟨[], [], [([(strToB "x", Val.number (F64.num 1))], Option.none)]⟩ 0
          (strToB "x") (Val.number (F64.num 2)),
         .error (STrace.fromB (msgVarNotExist (strToB "y")))) :=
  (c10_set_not_atomic ⟨[], [], [([(strToB "x", Val.number (F64.num 1))], Option.none)]⟩ 0
    (strToB "x") (strToB "y") (Val.number (F64.num 2)) (Val.number (F64.num 3))
    (by rfl) (by rfl)).1

/-- A table interpreting every Func as the constant None operator, for
concrete test inputs. -/
def ftZero : FTab := fun _ _ h _ => (h, .ok Val.none)

/-- C4 counterexample: with x bound only in the parent frame, where lookup
(the deep walk) resolves it, lib_mutate invoked from the child scope fails
with the in-this-scope error, because it uses lookup_shallow; the claim says
mutate works whenever lookup resolves the name, including ancestor frames. -/
theorem c4_counterexample :
    lookupDeep heapParentX (strToB "x") 3 1 = some (Val.number (F64.num 1))
    ∧ libMutate ftZero 5 [Val.str (strToB "x"), Val.func 0] heapParentX 1
        = (heapParentX, .error (STrace.fromB (msgVarNotExistScope (strToB "x")))) :=
  ⟨by rfl, by rfl⟩

/-- C4 amended: mutate works exactly when the name is bound in the current
frame (lookup_shallow); in that case, for every native callback whose
interpretation leaves the heap unchanged, (mutate name f args) ends in the
same heap as (set name r) where r is the callback result f(old, args), and
additionally returns r (set returns None).  The name is removed from the
frame during the callback, so the callback runs against the erased frame. -/
theorem c4_mutate_shallow_equiv (ft : FTab) (fuel : Nat) (h : Heap) (sc : Nat)
    (name : BStr) (fid : Nat) (rest : List Val) (v res : Val)
    (hv : lookupShallow h sc name = some v)
    (hpres : ∀ ags hh scc, (ft fid ags hh scc).1 = hh)
    (hcall : (ft fid (v :: rest) (eraseShallow h sc name) sc).2 = .ok res) :
    libMutate ft (fuel + 1) (Val.str name :: Val.func fid :: rest) h sc
        = (insertShallow h sc name res, .ok res)
    ∧ libSet [Val.str name, res] h sc = (insertShallow h sc name res, .ok .none) := by
  have hcv : callV ft (fuel + 1) (Val.func fid) (v :: rest) (eraseShallow h sc name) sc
      = (eraseShallow h sc name, .ok res) := by
    rw [callV]
    exact Prod.ext (hpres (v :: rest) (eraseShallow h sc name) sc) hcall
  constructor
  · rw [libMutate]
    simp only [getStringArg, hv, hcv]
    rw [insertShallow_erase]
  · exact libSet_single h sc name res (by simp [hasShallow, hv])

/-- Witness for c4_mutate_shallow_equiv: mutating x with a callback that
returns 9 ends with x mapped to 9 and returns 9. -/
theorem c4_mutate_shallow_equiv_witness :
    libMutate (fun _ _ hh _ => (hh, .ok (Val.number (F64.num 9)))) 1
        [Val.str (strToB "x"), Val.func 0]
        ⟨[], [], [([(strToB "x", Val.number (F64.num 1))], Option.none)]⟩ 0
      = (insertShallow ⟨[], [], [([(strToB "x", Val.number (F64.num 1))], Option.none)]⟩ 0
          (strToB "x") (Val.number (F64.num 9)), .ok (Val.number (F64.num 9))) :=
  (c4_mutate_shallow_equiv (fun _ _ hh _ => (hh, .ok (Val.number (F64.num 9)))) 0
    ⟨[], [], [([(strToB "x", Val.number (F64.num 1))], Option.none)]⟩ 0
    (strToB "x") 0 [] (Val.number (F64.num 1)) (Val.number (F64.num 9))
    (by rfl) (fun _ _ _ => rfl) (by rfl)).1

/-- C7: try calls its body with zero arguments in a fresh subscope of the
scope of the caller; when the body succeeds its result passes through untouched
(the catch callable plays no part in the outcome); when the body raises, the
catch callable is called in the scope of the caller with exactly one argument,
the payload value of the raised error; and lib_error builds that payload as None
for zero arguments and as the given value itself (not a stringified
message) for one argument. -/
theorem c7_try_payload (ft : FTab) (fuel : Nat) (h : Heap) (sc : Nat) (body catchv : Val) :
    (∀ h2 res, callV ft fuel body [] (subscope h sc).1 (subscope h sc).2 = (h2, .ok res) →
      libTry ft fuel [body, catchv] h sc = (h2, .ok res))
    ∧ (∀ h2 payload tr,
        callV ft fuel body [] (subscope h sc).1 (subscope h sc).2 = (h2, .error ⟨payload, tr⟩) →
        libTry ft fuel [body, catchv] h sc = callV ft fuel catchv [payload] h2 sc)
    ∧ (∀ v, libError [v] h = (h, .error (STrace.fromVal v)))
    ∧ libError [] h = (h, .error (STrace.fromVal Val.none)) := by
  refine ⟨?_, ?_, fun v => rfl, rfl⟩
  · intro h2 res hbody
    rw [libTry]
    simp only [hbody]
  · intro h2 payload tr hbody
    rw [libTry]
    simp only [hbody]

/-- The Func table of the C7 witness: operator 0 raises with the payload
boom, operator 1 returns its first argument. -/
def ftTryW : FTab := fun fid ags hh _ =>
  if fid = 0 then (hh, .error (STrace.fromVal (Val.str (strToB "boom"))))
  else (hh, .ok (ags.headD Val.none))

/-- Witness for c7_try_payload: the body raises (error boom); the catch
callable receives the payload boom itself and returns it. -/
theorem c7_try_payload_witness :
    libTry ftTryW 1 [Val.func 0, Val.func 1] ⟨[], [], []⟩ 0
      = (⟨[], [], [([], some 0)]⟩, .ok (Val.str (strToB "boom"))) :=
  ((c7_try_payload ftTryW 1 ⟨[], [], []⟩ 0 (Val.func 0) (Val.func 1)).2.1
    ⟨[], [], [([], some 0)]⟩ (Val.str (strToB "boom")) [] (by rfl)).trans (by rfl)

/-!
The parser.  parse.rs is not among the provided sources; the grammar is
modelled from the spec (section 4.2).  Input is the byte list; line and
column tracking is omitted because the round-trip claim compares modulo
Location, so parsed Call and Quote nodes carry a fixed dummy location.
The display form is from the provided src/src/ast.rs.
-/

/-- The dummy location carried by parsed nodes. -/
def dummyLoc : Loc := ⟨0, 0, []⟩

/-- Whitespace bytes: ASCII space, tab, CR, LF (spec section 4.2). -/
def isWsB (b : Nat) : Bool := b = 32 || b = 9 || b = 13 || b = 10

/-- ASCII decimal digit bytes. -/
def isDigitB (b : Nat) : Bool := 48 ≤ b && b ≤ 57

/-- The bytes an identifier may not contain besides whitespace: the comment
start and the punctuation set of the grammar. -/
def excludedBytes : List Nat := [59, 40, 41, 123, 125, 91, 93, 34, 46]

/-- Identifier bytes: anything that is not whitespace, not the comment
start, and not punctuation (spec section 4.2). -/
def isIdentB (b : Nat) : Bool := !(isWsB b) && !(excludedBytes.contains b)

/-- Skip whitespace and comments (semicolon to end of line); the flag is
true inside a comment. -/
def skipWs : Bool → List Nat → List Nat
  | _, [] => []
  | true, b :: rest => if b = 10 then skipWs false rest else skipWs true rest
  | false, b :: rest =>
    if isWsB b then skipWs false rest
    else if b = 59 then skipWs true rest
    else b :: rest

/-- Read an identifier token: the longest prefix of identifier bytes. -/
def readIdent (input : List Nat) : BStr × List Nat :=
  (input.takeWhile isIdentB, input.dropWhile isIdentB)

/-- Value of a big-endian digit byte list. -/
def digitsVal (bs : List Nat) : Nat := bs.foldl (fun a b => a * 10 + (b - 48)) 0

/-- Value of a hex digit byte, if it is one. -/
def hexVal (b : Nat) : Option Nat :=
  if 48 ≤ b ∧ b ≤ 57 then some (b - 48)
  else if 97 ≤ b ∧ b ≤ 102 then some (b - 87)
  else if 65 ≤ b ∧ b ≤ 70 then some (b - 55)
  else Option.none

/-- The single-character escapes of the string grammar (spec section 4.2). -/
def escVal (c : Nat) : Option Nat :=
  if c = 92 then some 92
  else if c = 34 then some 34
  else if c = 110 then some 10
  else if c = 116 then some 9
  else if c = 114 then some 13
  else if c = 48 then some 0
  else Option.none

/-- Parse error messages; exact texts are not pinned by the spec. -/
def msgParseEof : BStr := strToB "Unexpected end of input"

/-- Unterminated string literal. -/
def msgParseEofStr : BStr := strToB "Unexpected end of input in string"

/-- Unknown escape in a string literal. -/
def msgParseBadEscape : BStr := strToB "Invalid escape"

/-- A quote not followed by an identifier. -/
def msgParseNoIdent : BStr := strToB "Expected identifier"

/-- A call, block or infix list without its closer. -/
def msgParseNoCloser : BStr := strToB "Unexpected end of input in list"

/-- A byte no grammar rule accepts. -/
def msgParseBadByte : BStr := strToB "Unexpected character"

/-- An infix list without any operator. -/
def msgParseNoOperator : BStr := strToB "Expected operator"

/-- An infix list mixing different operators (spec: every OP token must be
identical). -/
def msgParseMixedOps : BStr := strToB "Operators must be identical"

/-- Read a string literal body after the opening quote, handling the escape
set backslash, quote, n, t, r, 0 and xHH (spec section 4.2). -/
def readStr : List Nat → Except BStr (BStr × List Nat)
  | [] => .error msgParseEofStr
  | b :: rest =>
    if b = 34 then .ok ([], rest)
    else if b = 92 then
      match rest with
      | [] => .error msgParseEofStr
      | c :: rest2 =>
        if c = 120 then
          match rest2 with
          | h1 :: h2 :: rest3 =>
            match hexVal h1, hexVal h2 with
            | some a, some b2 =>
              match readStr rest3 with
              | .error e => .error e
              | .ok (s, r) => .ok ((a * 16 + b2) :: s, r)
            | _, _ => .error msgParseBadEscape
          | _ => .error msgParseBadEscape
        else
          match escVal c with
          | some eb =>
            match readStr rest2 with
            | .error e => .error e
            | .ok (s, r) => .ok (eb :: s, r)
          | Option.none => .error msgParseBadEscape
    else
      match readStr rest with
      | .error e => .error e
      | .ok (s, r) => .ok (b :: s, r)
termination_by structural input => input

/-- Read a number: one or more digits, then an optional point and fractional
digits (spec section 4.2); the sign was consumed by the caller.  The input
is known to start with a digit. -/
def readNumber (neg : Bool) (input : List Nat) : F64 × List Nat :=
  let ds := input.takeWhile isDigitB
  let rest := input.dropWhile isDigitB
  let ip : Nat := digitsVal ds
  match rest with
  | b :: rest2 =>
    if b = 46 then
      let fs := rest2.takeWhile isDigitB
      let rest3 := rest2.dropWhile isDigitB
      let q : ℚ := (ip : ℚ) + (digitsVal fs : ℚ) / (10 : ℚ) ^ fs.length
      ((if neg then F64.num (-q) else F64.num q), rest3)
    else ((if neg then F64.num (-(ip : ℚ)) else F64.num (ip : ℚ)), b :: rest2)
  | [] => ((if neg then F64.num (-(ip : ℚ)) else F64.num (ip : ℚ)), [])

mutual
/-- Modelled from the spec (section 4.2): parse one expression, a primary
followed by a chain of dot calls (a.b.c parses as Call(Call(a,b),c)). -/
def parseExpr : Nat → List Nat → Except BStr (ExprR × List Nat)
  | 0, _ => .error msgFuel
  | fuel + 1, input =>
    match parsePrimary fuel input with
    | .error e => .error e
    | .ok (e, rest) => dotSuffix fuel e rest
termination_by structural fuel input => fuel

/-- Modelled from the spec (section 4.2): parse one primary expression after
skipping whitespace and comments: a call in parentheses, a block in braces
(a Quote node), an infix call in square brackets, a string literal, a quoted
identifier (a String node), a number with an optional leading minus, or an
identifier (a Lookup node). -/
def parsePrimary : Nat → List Nat → Except BStr (ExprR × List Nat)
  | 0, _ => .error msgFuel
  | fuel + 1, input =>
    match skipWs false input with
    | [] => .error msgParseEof
    | b :: rest =>
      if b = 40 then
        match parseChildren fuel 41 rest with
        | .error e => .error e
        | .ok (cs, rest2) => .ok (.call cs dummyLoc, rest2)
      else if b = 123 then
        match parseChildren fuel 125 rest with
        | .error e => .error e
        | .ok (cs, rest2) => .ok (.quote cs dummyLoc, rest2)
      else if b = 91 then
        match parseExpr fuel rest with
        | .error e => .error e
        | .ok (a, rest2) => parseBracketRest fuel Option.none [a] rest2
      else if b = 34 then
        match readStr rest with
        | .error e => .error e
        | .ok (s, rest2) => .ok (.str s, rest2)
      else if b = 39 then
        match readIdent rest with
        | (id, rest2) => if id = [] then .error msgParseNoIdent else .ok (.str id, rest2)
      else if isDigitB b then
        match readNumber false (b :: rest) with
        | (n, rest2) => .ok (.num n, rest2)
      else if b = 45 && (match rest with | c :: _ => isDigitB c | [] => false) then
        match readNumber true rest with
        | (n, rest2) => .ok (.num n, rest2)
      else if isIdentB b then
        match readIdent (b :: rest) with
        | (id, rest2) => .ok (.lookup id, rest2)
      else .error msgParseBadByte
termination_by structural fuel input => fuel

/-- Modelled from the spec (section 4.2): the chain of dot calls following a
primary; when the next byte is not a dot the expression is complete. -/
def dotSuffix : Nat → ExprR → List Nat → Except BStr (ExprR × List Nat)
  | fuel, e, input =>
    match input with
    | b :: rest =>
      if b = 46 then
        match fuel with
        | 0 => .error msgFuel
        | fuel2 + 1 =>
          match parsePrimary fuel2 rest with
          | .error er => .error er
          | .ok (a, rest2) => dotSuffix fuel2 (.call [e, a] dummyLoc) rest2
      else .ok (e, b :: rest)
    | [] => .ok (e, [])
termination_by structural fuel e input => fuel

/-- Modelled from the spec (section 4.2): the expressions of a call or block
up to the closing byte. -/
def parseChildren : Nat → Nat → List Nat → Except BStr (List ExprR × List Nat)
  | 0, _, _ => .error msgFuel
  | fuel + 1, closer, input =>
    match skipWs false input with
    | [] => .error msgParseNoCloser
    | b :: rest =>
      if b = closer then .ok ([], rest)
      else
        match parseExpr fuel (b :: rest) with
        | .error e => .error e
        | .ok (e, rest2) =>
          match parseChildren fuel closer rest2 with
          | .error er => .error er
          | .ok (cs, rest3) => .ok (e :: cs, rest3)
termination_by structural fuel closer input => fuel

/-- Modelled from the spec (section 4.2): the rest of an infix call after
its first operand: operator and operand pairs up to the closing bracket,
every operator identical, reassociated as Call(OP, A, B, C, ...); an infix
list with no operator at all is rejected (the spec does not define it). -/
def parseBracketRest : Nat → Option BStr → List ExprR → List Nat →
    Except BStr (ExprR × List Nat)
  | 0, _, _, _ => .error msgFuel
  | fuel + 1, opSeen, operands, input =>
    match skipWs false input with
    | [] => .error msgParseNoCloser
    | b :: rest =>
      if b = 93 then
        match opSeen with
        | some op => .ok (.call (.lookup op :: operands) dummyLoc, rest)
        | Option.none => .error msgParseNoOperator
      else
        match readIdent (b :: rest) with
        | (tok, rest2) =>
          if tok = [] then .error msgParseNoOperator
          else if (match opSeen with | some op => decide (op = tok) | Option.none => true) then
            match parseExpr fuel rest2 with
            | .error e => .error e
            | .ok (a, rest3) => parseBracketRest fuel (some tok) (operands ++ [a]) rest3
          else .error msgParseMixedOps
termination_by structural fuel opSeen operands input => fuel
end

/-- A hex digit byte (lower case letters, as Rust prints them). -/
def hexDigitB (n : Nat) : Nat := if n < 10 then n + 48 else n + 87

/-- Modelled from the spec: the debug display of one BString byte (bstring.rs
is not among the provided sources): the named escapes of the grammar, plain
printable bytes verbatim, and xHH hex escapes for the rest. -/
def escapeByte (b : Nat) : List Nat :=
  if b = 34 then [92, 34]
  else if b = 92 then [92, 92]
  else if b = 10 then [92, 110]
  else if b = 9 then [92, 116]
  else if b = 13 then [92, 114]
  else if b = 0 then [92, 48]
  else if 32 ≤ b ∧ b ≤ 126 then [b]
  else [92, 120, hexDigitB (b / 16), hexDigitB (b % 16)]

/-- Escaped body of the debug display of a BString. -/
def escapeB (s : BStr) : BStr := s.foldr (fun b acc => escapeByte b ++ acc) []

mutual
/-- The Display implementation of src/src/ast.rs lines 21 to 57: a String
displays in its debug form (quotes and escapes), a Number as Rust prints the
double, a Lookup as the raw name, a Call as the space-joined children in
parentheses, and a Quote as a quote byte followed by the space-joined
children in parentheses. -/
def displayE : ExprR → BStr
  | .str s => [34] ++ escapeB s ++ [34]
  | .num n => f64Display n
  | .lookup name => name
  | .call children _ => [40] ++ displayL children ++ [41]
  | .quote children _ => [39, 40] ++ displayL children ++ [41]

/-- Space-joined display forms of a child list (the loop of the Call and
Quote branches). -/
def displayL : List ExprR → BStr
  | [] => []
  | [e] => displayE e
  | e :: rest => displayE e ++ [32] ++ displayL rest
end

mutual
/-- Replace every Location with the dummy one. -/
def canonE : ExprR → ExprR
  | .str s => .str s
  | .num n => .num n
  | .lookup name => .lookup name
  | .call children _ => .call (canonL children) dummyLoc
  | .quote children _ => .quote (canonL children) dummyLoc

/-- canonE on every child. -/
def canonL : List ExprR → List ExprR
  | [] => []
  | e :: rest => canonE e :: canonL rest
end

mutual
/-- Equivalence of expressions modulo Location. -/
def equivE : ExprR → ExprR → Bool
  | .str a, .str b => decide (a = b)
  | .num a, .num b => decide (a = b)
  | .lookup a, .lookup b => decide (a = b)
  | .call ca _, .call cb _ => equivL ca cb
  | .quote ca _, .quote cb _ => equivL ca cb
  | _, _ => false

/-- Pairwise equivalence of child lists modulo Location. -/
def equivL : List ExprR → List ExprR → Bool
  | [], [] => true
  | a :: arest, b :: brest => equivE a b && equivL arest brest
  | _, _ => false
end

mutual
/-- Size of an expression, the fuel measure of the round-trip proof. -/
def sizeE : ExprR → Nat
  | .str _ => 1
  | .num _ => 1
  | .lookup _ => 1
  | .call children _ => sizeL children + 1
  | .quote children _ => sizeL children + 1

/-- Size of a child list. -/
def sizeL : List ExprR → Nat
  | [] => 1
  | e :: rest => sizeE e + sizeL rest + 2
end

/-- String bytes whose display needs no escape: printable, not the quote,
not the backslash. -/
def strOkB (b : Nat) : Bool := 32 ≤ b && b ≤ 126 && b ≠ 34 && b ≠ 92

/-- A round-trippable identifier: nonempty identifier bytes, not starting
with a digit (the number rule), a quote (the quoted-identifier rule), or a
minus directly followed by a digit (the negative-number rule).  Names
outside this set can still be parse-produced, through the operator slot of
the bracket infix rule, but their display form re-parses as another kind of
token, so they are excluded from the round-trip fragment. -/
def goodIdent (name : BStr) : Bool :=
  match name with
  | [] => false
  | b :: rest =>
    isIdentB b && !(isDigitB b) && b ≠ 39
      && !(b = 45 && (match rest with | c :: _ => isDigitB c | [] => false))
      && rest.all isIdentB

/-- An integer-valued number payload. -/
def intF64 : F64 → Bool
  | .num q => decide (q.den = 1)
  | _ => false

mutual
/-- The Quote-free round-trip fragment: strings of plainly printable bytes,
integer-valued numbers, round-trippable identifiers (goodIdent), and calls
of such. -/
def goodE : ExprR → Bool
  | .str s => s.all strOkB
  | .num n => intF64 n
  | .lookup name => goodIdent name
  | .call children _ => goodL children
  | .quote _ _ => false

/-- Every child in the fragment. -/
def goodL : List ExprR → Bool
  | [] => true
  | e :: rest => goodE e && goodL rest
end

/-- The bytes that may legally follow a complete expression in the proofs:
end of input, or a byte that neither extends a token (identifier bytes,
which include digits) nor starts a dot call or a fraction. -/
def sepOk : List Nat → Bool
  | [] => true
  | b :: _ => !(isIdentB b) && b ≠ 46

theorem skipWs_noop (b : Nat) (l : List Nat) (hw : isWsB b = false) (hc : b ≠ 59) :
    skipWs false (b :: l) = b :: l := by
  simp [skipWs, hw, hc]

/-- The first byte of the remainder, if any, fails the predicate. -/
def headNot (p : Nat → Bool) : List Nat → Prop
  | [] => True
  | b :: _ => p b = false

/-- The remainder does not continue a number token: its first byte, if any,
is neither a digit nor the point. -/
def numSep : List Nat → Prop
  | [] => True
  | b :: _ => isDigitB b = false ∧ b ≠ 46

theorem takeWhile_all_append {p : Nat → Bool} (l rest : List Nat)
    (hl : l.all p = true) (hr : headNot p rest) :
    (l ++ rest).takeWhile p = l ∧ (l ++ rest).dropWhile p = rest := by
  induction l with
  | nil =>
    simp only [List.nil_append]
    cases rest with
    | nil => simp
    | cons b tail =>
      have hr2 : p b = false := hr
      simp [List.takeWhile, List.dropWhile, hr2]
  | cons a atail ih =>
    simp only [List.all_cons, Bool.and_eq_true] at hl
    have := ih hl.2
    simp [List.takeWhile, List.dropWhile, hl.1, this.1, this.2]

theorem isDigitB_isIdentB (b : Nat) (hd : isDigitB b = true) : isIdentB b = true := by
  have hb : 48 ≤ b ∧ b ≤ 57 := by
    simpa [isDigitB, Bool.and_eq_true, decide_eq_true_eq] using hd
  simp only [isIdentB, isWsB, excludedBytes, Bool.and_eq_true, Bool.not_eq_true']
  refine ⟨?_, ?_⟩
  · simp only [Bool.or_eq_false_iff, decide_eq_false_iff_not]
    omega
  · show (excludedBytes.contains b) = false
    simp [excludedBytes]
    omega

theorem digitsVal_append_digit (l : List Nat) (b : Nat) :
    digitsVal (l ++ [b]) = digitsVal l * 10 + (b - 48) := by
  simp [digitsVal, List.foldl_append]

theorem digitsVal_natDigitsRev (fuel n : Nat) (hf : n ≤ fuel) :
    digitsVal (((natDigitsRev fuel n).reverse).map (fun d => d + 48)) = n := by
  induction fuel generalizing n with
  | zero =>
    have : n = 0 := by omega
    simp [natDigitsRev, digitsVal, this]
  | succ f ih =>
    by_cases hn : n = 0
    · simp [natDigitsRev, hn, digitsVal]
    · rw [natDigitsRev]
      simp only [hn, if_false]
      rw [List.reverse_cons, List.map_append]
      simp only [List.map_cons, List.map_nil]
      rw [digitsVal_append_digit]
      have hdiv : n / 10 ≤ f := by
        have h2 : n / 10 < n := Nat.div_lt_self (Nat.pos_of_ne_zero hn) (by omega)
        omega
      rw [ih (n / 10) hdiv]
      have h3 := Nat.div_add_mod n 10
      omega

theorem natDigitsRev_lt (fuel n : Nat) : ∀ b ∈ natDigitsRev fuel n, b < 10 := by
  induction fuel generalizing n with
  | zero => simp [natDigitsRev]
  | succ f ih =>
    intro b hb
    rw [natDigitsRev] at hb
    by_cases hn : n = 0
    · simp [hn] at hb
    · simp only [hn, if_false, List.mem_cons] at hb
      cases hb with
      | inl h => omega
      | inr h => exact ih (n / 10) b h

theorem digitsVal_natDigitsB (n : Nat) : digitsVal (natDigitsB n) = n := by
  by_cases hn : n = 0
  · simp [natDigitsB, hn, digitsVal]
  · rw [natDigitsB]
    simp only [hn, if_false]
    exact digitsVal_natDigitsRev n n (le_refl n)

theorem natDigitsB_all_digits (n : Nat) : (natDigitsB n).all isDigitB = true := by
  rw [natDigitsB]
  by_cases hn : n = 0
  · simp [hn, isDigitB]
  · simp only [hn, if_false, List.all_eq_true]
    intro b hb
    simp only [List.mem_map, List.mem_reverse] at hb
    obtain ⟨d, hd, rfl⟩ := hb
    have := natDigitsRev_lt n n d hd
    simp [isDigitB]
    omega

theorem natDigitsB_head (n : Nat) :
    ∃ b tail, natDigitsB n = b :: tail ∧ isDigitB b = true := by
  have hall := natDigitsB_all_digits n
  cases hd : natDigitsB n with
  | nil =>
    exfalso
    rw [natDigitsB] at hd
    by_cases hn : n = 0
    · simp [hn] at hd
    · obtain ⟨m, rfl⟩ : ∃ m, n = m + 1 := ⟨n - 1, by omega⟩
      simp only [hn, if_false] at hd
      rw [natDigitsRev] at hd
      simp [hn] at hd
  | cons b tail =>
    rw [hd] at hall
    simp only [List.all_cons, Bool.and_eq_true] at hall
    exact ⟨b, tail, rfl, hall.1⟩

theorem escapeByte_ok (b : Nat) (hb : strOkB b = true) : escapeByte b = [b] := by
  have h : ((32 ≤ b ∧ b ≤ 126) ∧ b ≠ 34) ∧ b ≠ 92 := by
    simpa [strOkB, Bool.and_eq_true, decide_eq_true_eq] using hb
  obtain ⟨⟨⟨h1, h2⟩, h3⟩, h4⟩ := h
  have h5 : b ≠ 10 := by omega
  have h6 : b ≠ 9 := by omega
  have h7 : b ≠ 13 := by omega
  have h8 : b ≠ 0 := by omega
  have h9 : 32 ≤ b ∧ b ≤ 126 := ⟨h1, h2⟩
  simp [escapeByte, h3, h4, h5, h6, h7, h8, h9]

theorem escapeB_ok (s : BStr) (hs : s.all strOkB = true) : escapeB s = s := by
  induction s with
  | nil => rfl
  | cons b t ih =>
    simp only [List.all_cons, Bool.and_eq_true] at hs
    show escapeByte b ++ escapeB t = b :: t
    rw [escapeByte_ok b hs.1, ih hs.2]
    rfl

theorem readStr_plain (s : BStr) (rest : List Nat) (hs : s.all strOkB = true) :
    readStr (s ++ 34 :: rest) = .ok (s, rest) := by
  induction s with
  | nil =>
    rw [List.nil_append, readStr.eq_def]
    simp
  | cons b t ih =>
    simp only [List.all_cons, Bool.and_eq_true] at hs
    have h : ((32 ≤ b ∧ b ≤ 126) ∧ b ≠ 34) ∧ b ≠ 92 := by
      simpa [strOkB, Bool.and_eq_true, decide_eq_true_eq] using hs.1
    show readStr (b :: (t ++ 34 :: rest)) = .ok (b :: t, rest)
    rw [readStr.eq_def]
    simp [h.1.2, h.2, ih hs.2]

theorem readIdent_all (name : BStr) (rest : List Nat) (hall : name.all isIdentB = true)
    (hr : headNot isIdentB rest) :
    readIdent (name ++ rest) = (name, rest) := by
  have h := takeWhile_all_append name rest hall hr
  simp [readIdent, h.1, h.2]

theorem readNumber_int (n : Nat) (neg : Bool) (rest : List Nat) (hr : numSep rest) :
    readNumber neg (natDigitsB n ++ rest)
      = ((if neg then F64.num (-(n : ℚ)) else F64.num (n : ℚ)), rest) := by
  cases rest with
  | nil =>
    have htw := takeWhile_all_append (natDigitsB n) [] (natDigitsB_all_digits n) trivial
    simp only [List.append_nil] at htw
    simp [readNumber, htw.1, htw.2, digitsVal_natDigitsB]
  | cons b t =>
    have hb1 : isDigitB b = false ∧ b ≠ 46 := hr
    have htw := takeWhile_all_append (natDigitsB n) (b :: t) (natDigitsB_all_digits n) hb1.1
    simp [readNumber, htw.1, htw.2, digitsVal_natDigitsB, hb1.2]

theorem displayE_head (e : ExprR) (hg : goodE e = true) :
    ∃ b tail, displayE e = b :: tail
      ∧ isWsB b = false ∧ b ≠ 59 ∧ b ≠ 41 ∧ b ≠ 125 := by
  cases e with
  | str s =>
    exact ⟨34, escapeB s ++ [34], by rw [displayE]; rfl, by decide, by decide, by decide,
      by decide⟩
  | num n =>
    cases n with
    | num q =>
      by_cases hq : q < 0
      · have hdisp : displayE (ExprR.num (F64.num q))
            = 45 :: (natDigitsB (q.num.natAbs / q.den)
              ++ (match fracDigitsN 1200 (q.num.natAbs % q.den) q.den with
                  | [] => [] | fr => 46 :: fr)) := by
          rw [displayE, f64Display]
          simp [hq]
        exact ⟨45, _, hdisp, by decide, by decide, by decide, by decide⟩
      · obtain ⟨b, tail, hb, hdig⟩ := natDigitsB_head (q.num.natAbs / q.den)
        have hd : 48 ≤ b ∧ b ≤ 57 := by
          simpa [isDigitB, Bool.and_eq_true, decide_eq_true_eq] using hdig
        have hdisp : displayE (ExprR.num (F64.num q))
            = b :: (tail ++ (match fracDigitsN 1200 (q.num.natAbs % q.den) q.den with
                | [] => [] | fr => 46 :: fr)) := by
          rw [displayE, f64Display]
          simp [hq, hb]
        have hws : isWsB b = false := by
          simp only [isWsB, Bool.or_eq_false_iff, decide_eq_false_iff_not]
          omega
        exact ⟨b, _, hdisp, hws, by omega, by omega, by omega⟩
    | inf => simp [goodE, intF64] at hg
    | negInf => simp [goodE, intF64] at hg
    | nan => simp [goodE, intF64] at hg
  | lookup name =>
    rw [goodE] at hg
    cases name with
    | nil => simp [goodIdent] at hg
    | cons b t =>
      simp only [goodIdent, Bool.and_eq_true] at hg
      have hid := hg.1.1.1.1
      have hmem : (excludedBytes.contains b) = false := by
        have := hid
        simp only [isIdentB, Bool.and_eq_true, Bool.not_eq_true'] at this
        exact this.2
      have hws : isWsB b = false := by
        have := hid
        simp only [isIdentB, Bool.and_eq_true, Bool.not_eq_true'] at this
        exact this.1
      have hne : b ∉ excludedBytes := by
        intro hmm
        have hc : excludedBytes.contains b = true := by simpa using hmm
        rw [hc] at hmem
        simp at hmem
      refine ⟨b, t, rfl, hws, ?_, ?_, ?_⟩
      · intro he
        subst he
        exact hne (by simp [excludedBytes])
      · intro he
        subst he
        exact hne (by simp [excludedBytes])
      · intro he
        subst he
        exact hne (by simp [excludedBytes])
  | call children loc =>
    exact ⟨40, displayL children ++ [41], by rw [displayE]; rfl, by decide, by decide,
      by decide, by decide⟩
  | quote children loc => rw [goodE] at hg; exact absurd hg (by simp)

theorem sizeE_pos (e : ExprR) : 1 ≤ sizeE e := by
  cases e <;> simp [sizeE]

theorem sizeL_pos (l : List ExprR) : 1 ≤ sizeL l := by
  cases l <;> simp [sizeL]

mutual
theorem equivE_canon : (e : ExprR) → equivE e (canonE e) = true
  | .str s => by simp [canonE, equivE]
  | .num n => by simp [canonE, equivE]
  | .lookup n => by simp [canonE, equivE]
  | .call cs l => by rw [canonE, equivE]; exact equivL_canon cs
  | .quote cs l => by rw [canonE, equivE]; exact equivL_canon cs

theorem equivL_canon : (l : List ExprR) → equivL l (canonL l) = true
  | [] => rfl
  | e :: rest => by
    rw [canonL, equivL]
    simp [equivE_canon e, equivL_canon rest]
end

theorem parseChildren_ws (fuel closer b : Nat) (input : List Nat) (hb : isWsB b = true) :
    parseChildren fuel closer (b :: input) = parseChildren fuel closer input := by
  cases fuel with
  | zero => rfl
  | succ f =>
    have hskip : skipWs false (b :: input) = skipWs false input := by
      simp [skipWs, hb]
    rw [parseChildren, parseChildren, hskip]

theorem sizeE_call (cs : List ExprR) (l : Loc) : sizeE (ExprR.call cs l) = sizeL cs + 1 := rfl

theorem sizeL_nil : sizeL [] = 1 := rfl

theorem sizeL_cons (e : ExprR) (rest : List ExprR) :
    sizeL (e :: rest) = sizeE e + sizeL rest + 2 := rfl

theorem isIdentB_facts (b : Nat) (hid : isIdentB b = true) :
    isWsB b = false ∧ b ≠ 59 ∧ b ≠ 40 ∧ b ≠ 41 ∧ b ≠ 123 ∧ b ≠ 125
      ∧ b ≠ 91 ∧ b ≠ 93 ∧ b ≠ 34 ∧ b ≠ 46 := by
  simp only [isIdentB, Bool.and_eq_true, Bool.not_eq_true'] at hid
  obtain ⟨hws, hmem⟩ := hid
  have hne : b ∉ excludedBytes := by
    intro hmm
    have hc : excludedBytes.contains b = true := by simpa using hmm
    rw [hc] at hmem
    simp at hmem
  refine ⟨hws, ?_, ?_, ?_, ?_, ?_, ?_, ?_, ?_, ?_⟩ <;>
    (intro he; exact hne (by subst he; simp [excludedBytes]))

theorem sepOk_not_digit (c : Nat) (r2 : List Nat) (hs : sepOk (c :: r2) = true) :
    isDigitB c = false ∧ c ≠ 46 := by
  have h2 : isIdentB c = false ∧ c ≠ 46 := by
    simpa [sepOk, Bool.and_eq_true] using hs
  refine ⟨?_, h2.2⟩
  cases hdc : isDigitB c with
  | false => rfl
  | true => rw [isDigitB_isIdentB c hdc] at h2; exact absurd h2.1 (by simp)

mutual
theorem parsePrimary_display : (e : ExprR) → (fuel : Nat) → (rest : List Nat) →
    goodE e = true → sizeE e < fuel → sepOk rest = true →
    parsePrimary fuel (displayE e ++ rest) = .ok (canonE e, rest)
  | .str s, fuel, rest, hg, hf, hs => by
    obtain ⟨f, rfl⟩ : ∃ f, fuel = f + 1 := ⟨fuel - 1, by omega⟩
    have hsok : s.all strOkB = true := by simpa [goodE] using hg
    have hinput : displayE (ExprR.str s) ++ rest = 34 :: (escapeB s ++ (34 :: rest)) := by
      rw [displayE]
      simp [List.append_assoc]
    rw [parsePrimary, hinput,
      skipWs_noop 34 (escapeB s ++ (34 :: rest)) (by decide) (by decide)]
    rw [escapeB_ok s hsok]
    simp [readStr_plain s rest hsok, canonE]
  | .num (F64.num q), fuel, rest, hg, hf, hs => by
    obtain ⟨f, rfl⟩ : ∃ f, fuel = f + 1 := ⟨fuel - 1, by omega⟩
    have hden : q.den = 1 := by simpa [goodE, intF64] using hg
    have hfrac : fracDigitsN 1200 (q.num.natAbs % q.den) q.den = [] := by
      rw [hden, Nat.mod_one]
      rfl
    have hsep2 : numSep rest := by
      cases rest with
      | nil => trivial
      | cons c r2 => exact sepOk_not_digit c r2 hs
    obtain ⟨b0, t0, hb, hdig⟩ := natDigitsB_head (q.num.natAbs / q.den)
    have hd09 : 48 ≤ b0 ∧ b0 ≤ 57 := by
      simpa [isDigitB, Bool.and_eq_true, decide_eq_true_eq] using hdig
    have hqint : (q.num : ℚ) = q := by
      have h2 := Rat.num_div_den q
      rw [hden] at h2
      simpa using h2
    have h5 : ((q.num.natAbs : Nat) : ℚ) = (((q.num.natAbs : ℤ)) : ℚ) :=
      (Int.cast_natCast q.num.natAbs).symm
    by_cases hq : q < 0
    · have hn : q.num < 0 := Rat.num_neg.mpr hq
      have hnum : -(((q.num.natAbs / q.den : Nat)) : ℚ) = q := by
        rw [hden, Nat.div_one]
        have h4 : (q.num.natAbs : ℤ) = -q.num := Int.ofNat_natAbs_of_nonpos (le_of_lt hn)
        rw [h5, h4]
        push_cast
        simp [hqint]
      have hdisp : displayE (ExprR.num (F64.num q)) ++ rest
          = 45 :: (natDigitsB (q.num.natAbs / q.den) ++ rest) := by
        rw [displayE, f64Display, hfrac]
        simp [hq, List.append_assoc]
      rw [parsePrimary, hdisp,
        skipWs_noop 45 (natDigitsB (q.num.natAbs / q.den) ++ rest) (by decide) (by decide)]
      rw [hb, List.cons_append]
      norm_num [show isDigitB 45 = false from by decide, hdig]
      rw [show b0 :: (t0 ++ rest) = natDigitsB (q.num.natAbs / q.den) ++ rest from by
        rw [hb, List.cons_append]]
      rw [readNumber_int (q.num.natAbs / q.den) true rest hsep2]
      simp [canonE, hnum]
    · have hn : 0 ≤ q.num := Rat.num_nonneg.mpr (le_of_not_lt hq)
      have hnum : (((q.num.natAbs / q.den : Nat)) : ℚ) = q := by
        rw [hden, Nat.div_one]
        have h4 : (q.num.natAbs : ℤ) = q.num := Int.natAbs_of_nonneg hn
        rw [h5, h4]
        exact hqint
      have hdisp : displayE (ExprR.num (F64.num q)) ++ rest
          = b0 :: (t0 ++ rest) := by
        rw [displayE, f64Display, hfrac, hb]
        simp [hq]
      have hb40 : b0 ≠ 40 := by omega
      have hb123 : b0 ≠ 123 := by omega
      have hb91 : b0 ≠ 91 := by omega
      have hb34 : b0 ≠ 34 := by omega
      have hb39 : b0 ≠ 39 := by omega
      have hws0 : isWsB b0 = false := by
        simp only [isWsB, Bool.or_eq_false_iff, decide_eq_false_iff_not]
        omega
      have hb59 : b0 ≠ 59 := by omega
      rw [parsePrimary, hdisp, skipWs_noop b0 (t0 ++ rest) hws0 hb59]
      simp only [hb40, hb123, hb91, hb34, hb39, hdig, if_true, ite_true, if_false,
        ite_false, eq_self_iff_true]
      rw [show b0 :: (t0 ++ rest) = natDigitsB (q.num.natAbs / q.den) ++ rest from by
        rw [hb, List.cons_append]]
      rw [readNumber_int (q.num.natAbs / q.den) false rest hsep2]
      simp [canonE, hnum]
  | .num F64.inf, fuel, rest, hg, hf, hs => by
    exact absurd hg (by simp [goodE, intF64])
  | .num F64.negInf, fuel, rest, hg, hf, hs => by
    exact absurd hg (by simp [goodE, intF64])
  | .num F64.nan, fuel, rest, hg, hf, hs => by
    exact absurd hg (by simp [goodE, intF64])
  | .lookup [], fuel, rest, hg, hf, hs => by
    exact absurd hg (by simp [goodE, goodIdent])
  | .lookup (b :: t), fuel, rest, hg, hf, hs => by
    obtain ⟨f, rfl⟩ : ∃ f, fuel = f + 1 := ⟨fuel - 1, by omega⟩
    simp only [goodE, goodIdent, Bool.and_eq_true, Bool.not_eq_true',
      decide_eq_true_eq] at hg
    obtain ⟨⟨⟨⟨hid, hnd⟩, h39⟩, h45c⟩, hall⟩ := hg
    obtain ⟨hws, h59, h40, h41, h123, h125, h91, h93, h34, h46⟩ := isIdentB_facts b hid
    have hinput : displayE (ExprR.lookup (b :: t)) ++ rest = b :: (t ++ rest) := by
      rw [displayE]
      rfl
    have hcond : (decide (b = 45) && (match t ++ rest with
        | c :: _ => isDigitB c | [] => false)) = false := by
      by_cases hb45 : b = 45
      · subst hb45
        cases t with
        | nil =>
          cases rest with
          | nil => simp
          | cons c r2 =>
            have h2 := sepOk_not_digit c r2 hs
            simp [h2.1]
        | cons c t2 =>
          have hdc : isDigitB c = false := by simpa using h45c
          simp [hdc]
      · simp [hb45]
    have hreadid : readIdent (b :: (t ++ rest)) = (b :: t, rest) := by
      have h3 : readIdent ((b :: t) ++ rest) = (b :: t, rest) := by
        refine readIdent_all (b :: t) rest ?_ ?_
        · simp [List.all_cons, hid, hall]
        · cases rest with
          | nil => trivial
          | cons c r2 =>
            have h2 : isIdentB c = false ∧ c ≠ 46 := by
              simpa [sepOk, Bool.and_eq_true] using hs
            exact h2.1
      simpa using h3
    rw [parsePrimary, hinput, skipWs_noop b (t ++ rest) hws h59]
    simp [h40, h123, h91, h34, h39, hnd, hcond, hid, hreadid, canonE]
  | .call children loc, fuel, rest, hg, hf, hs => by
    obtain ⟨f, rfl⟩ : ∃ f, fuel = f + 1 := ⟨fuel - 1, by omega⟩
    have hinput : displayE (ExprR.call children loc) ++ rest
        = 40 :: (displayL children ++ (41 :: rest)) := by
      rw [displayE]
      simp [List.append_assoc]
    rw [parsePrimary, hinput,
      skipWs_noop 40 (displayL children ++ (41 :: rest)) (by decide) (by decide)]
    have hgl : goodL children = true := by simpa [goodE] using hg
    have hsz : sizeL children < f := by
      rw [sizeE_call] at hf
      omega
    simp [parseChildren_display children f 41 rest hgl hsz (Or.inl rfl), canonE]
  | .quote children loc, fuel, rest, hg, hf, hs => by
    exact absurd hg (by simp [goodE])
termination_by e fuel rest hg hf hs => (3 * sizeE e, 0)
decreasing_by
  all_goals simp only [sizeE_call, sizeL_cons, sizeL_nil]
  all_goals (apply Prod.Lex.left)
  all_goals omega

theorem parseExpr_display : (e : ExprR) → (fuel : Nat) → (rest : List Nat) →
    goodE e = true → sizeE e + 1 < fuel → sepOk rest = true →
    parseExpr fuel (displayE e ++ rest) = .ok (canonE e, rest)
  | e, fuel, rest, hg, hf, hs => by
    obtain ⟨f, rfl⟩ : ∃ f, fuel = f + 1 := ⟨fuel - 1, by omega⟩
    rw [parseExpr, parsePrimary_display e f rest hg (by omega) hs]
    cases rest with
    | nil =>
      show dotSuffix f (canonE e) [] = Except.ok (canonE e, [])
      rw [dotSuffix.eq_def]
    | cons b t =>
      have h2 : isIdentB b = false ∧ b ≠ 46 := by
        simpa [sepOk, Bool.and_eq_true] using hs
      show dotSuffix f (canonE e) (b :: t) = Except.ok (canonE e, b :: t)
      rw [dotSuffix.eq_def]
      simp [h2.2]
termination_by e fuel rest hg hf hs => (3 * sizeE e, 1)
decreasing_by
  all_goals (apply Prod.Lex.right)
  all_goals omega

theorem parseChildren_display : (children : List ExprR) → (fuel closer : Nat) →
    (rest : List Nat) → goodL children = true → sizeL children < fuel →
    (closer = 41 ∨ closer = 125) →
    parseChildren fuel closer (displayL children ++ closer :: rest)
      = .ok (canonL children, rest)
  | [], fuel, closer, rest, hg, hf, hc => by
    obtain ⟨f, rfl⟩ : ∃ f, fuel = f + 1 := ⟨fuel - 1, by omega⟩
    have hclw : isWsB closer = false ∧ closer ≠ 59 := by
      rcases hc with rfl | rfl <;> exact ⟨by decide, by decide⟩
    rw [show displayL [] ++ closer :: rest = closer :: rest from rfl]
    rw [parseChildren, skipWs_noop closer rest hclw.1 hclw.2]
    simp [canonL]
  | [e], fuel, closer, rest, hg, hf, hc => by
    obtain ⟨f, rfl⟩ : ∃ f, fuel = f + 1 := ⟨fuel - 1, by omega⟩
    have hge : goodE e = true := by simpa [goodL, Bool.and_eq_true] using hg
    obtain ⟨b0, t0, hb, hws0, h59, h41, h125⟩ := displayE_head e hge
    have hbc : b0 ≠ closer := by rcases hc with rfl | rfl <;> assumption
    have hinput : displayL [e] ++ closer :: rest
        = b0 :: (t0 ++ closer :: rest) := by
      rw [show displayL [e] = displayE e from rfl, hb]
      rfl
    rw [hinput, parseChildren, skipWs_noop b0 (t0 ++ closer :: rest) hws0 h59]
    have hsepc : sepOk (closer :: rest) = true := by
      rcases hc with rfl | rfl <;> simp [sepOk, isIdentB, isWsB, excludedBytes]
    have hpe : parseExpr f (displayE e ++ closer :: rest)
        = .ok (canonE e, closer :: rest) := by
      refine parseExpr_display e f (closer :: rest) hge ?_ hsepc
      rw [sizeL_cons, sizeL_nil] at hf
      omega
    rw [hb] at hpe
    simp only [List.cons_append] at hpe
    have hrec : parseChildren f closer (closer :: rest) = .ok ([], rest) := by
      have h5 := parseChildren_display [] f closer rest (by rfl)
        (by rw [sizeL_cons, sizeL_nil] at hf; rw [sizeL_nil]; omega) hc
      simpa using h5
    simp [hbc, hpe, hrec, canonL]
  | e :: e2 :: es2, fuel, closer, rest, hg, hf, hc => by
    obtain ⟨f, rfl⟩ : ∃ f, fuel = f + 1 := ⟨fuel - 1, by omega⟩
    have hge : goodE e = true ∧ goodL (e2 :: es2) = true := by
      simpa [goodL, Bool.and_eq_true] using hg
    obtain ⟨b0, t0, hb, hws0, h59, h41, h125⟩ := displayE_head e hge.1
    have hbc : b0 ≠ closer := by rcases hc with rfl | rfl <;> assumption
    have hinput : displayL (e :: e2 :: es2) ++ closer :: rest
        = b0 :: (t0 ++ (32 :: (displayL (e2 :: es2) ++ closer :: rest))) := by
      rw [show displayL (e :: e2 :: es2)
          = displayE e ++ [32] ++ displayL (e2 :: es2) from rfl, hb]
      simp [List.append_assoc]
    rw [hinput, parseChildren,
      skipWs_noop b0 (t0 ++ (32 :: (displayL (e2 :: es2) ++ closer :: rest))) hws0 h59]
    have hpe : parseExpr f (displayE e ++ (32 :: (displayL (e2 :: es2) ++ closer :: rest)))
        = .ok (canonE e, 32 :: (displayL (e2 :: es2) ++ closer :: rest)) := by
      refine parseExpr_display e f _ hge.1 ?_ (by simp [sepOk, isIdentB, isWsB])
      rw [sizeL_cons] at hf
      have h6 := sizeL_pos (e2 :: es2)
      omega
    rw [hb] at hpe
    simp only [List.cons_append] at hpe
    have hrec : parseChildren f closer (32 :: (displayL (e2 :: es2) ++ closer :: rest))
        = .ok (canonL (e2 :: es2), rest) := by
      rw [parseChildren_ws f closer 32 (displayL (e2 :: es2) ++ closer :: rest) (by decide)]
      refine parseChildren_display (e2 :: es2) f closer rest hge.2 ?_ hc
      rw [sizeL_cons] at hf
      have h7 := sizeE_pos e
      omega
    simp [hbc, hpe, hrec, canonL]
termination_by children fuel closer rest hg hf hc => (3 * sizeL children, 0)
decreasing_by
  all_goals simp only [sizeE_call, sizeL_cons, sizeL_nil]
  all_goals (apply Prod.Lex.left)
  all_goals omega
end

/-- C6 counterexample, in two parts.  First, the Quote node with no children
is parse-producible (the parser produces it from an open and a close brace,
bytes 123 and 125), its display form from src/src/ast.rs is a quote byte
followed by an empty parenthesis pair (bytes 39, 40, 41), and re-parsing
that display form is a parse error (a quote byte must be followed by an
identifier), not an Expression equivalent to the Quote.  Second, the
identifier restriction of the amended claim is necessary even for Quote-free
expressions without any literal: the operator slot of the bracket infix rule
reads a raw identifier token, so the input bracket a space quote x space b
close-bracket (bytes 91 97 32 39 120 32 98 93) parse-produces a Call whose
head is a Lookup of the two-byte name quote x; its display form, an open
parenthesis then quote x space a space b then a close parenthesis (bytes 40
39 120 32 97 32 98 41), re-parses with the head read as the quoted
identifier rule, a String node, which is not equivalent to the original. -/
theorem c6_counterexample :
    (parseExpr 9 [123, 125] = .ok (ExprR.quote [] dummyLoc, [])
    ∧ displayE (ExprR.quote [] dummyLoc) = [39, 40, 41]
    ∧ parseExpr 9 (displayE (ExprR.quote [] dummyLoc)) = .error msgParseNoIdent)
    ∧ (parseExpr 9 [91, 97, 32, 39, 120, 32, 98, 93]
        = .ok (ExprR.call [ExprR.lookup [39, 120], ExprR.lookup [97],
            ExprR.lookup [98]] dummyLoc, [])
    ∧ displayE (ExprR.call [ExprR.lookup [39, 120], ExprR.lookup [97],
            ExprR.lookup [98]] dummyLoc)
        = [40, 39, 120, 32, 97, 32, 98, 41]
    ∧ parseExpr 9 (displayE (ExprR.call [ExprR.lookup [39, 120], ExprR.lookup [97],
            ExprR.lookup [98]] dummyLoc))
        = .ok (ExprR.call [ExprR.str [120], ExprR.lookup [97],
            ExprR.lookup [98]] dummyLoc, [])
    ∧ equivE (ExprR.call [ExprR.lookup [39, 120], ExprR.lookup [97],
            ExprR.lookup [98]] dummyLoc)
        (ExprR.call [ExprR.str [120], ExprR.lookup [97],
            ExprR.lookup [98]] dummyLoc) = false) :=
  ⟨⟨by rfl, by rfl, by rfl⟩, ⟨by rfl, by rfl, by rfl, by rfl⟩⟩

/-- C6 amended: for every Expression in the Quote-free round-trip fragment
(strings of plainly printable bytes, integer-valued numbers, Lookup names
made of identifier bytes that do not begin with a digit, a quote byte, or a
minus directly followed by a digit, and calls of such), re-parsing the
display form consumes it entirely and yields an Expression equivalent to the
original modulo Location.  Expressions containing a Quote node do not
round-trip: a Quote displays as a quote byte before a parenthesis list,
which the grammar reads as a quoted identifier, not a block; and Lookup
names outside the identifier restriction, though parse-producible through
the operator slot of the bracket infix rule, also fail to round-trip. -/
theorem c6_roundtrip_quote_free (e : ExprR) (fuel : Nat) (hg : goodE e = true)
    (hf : sizeE e + 1 < fuel) :
    parseExpr fuel (displayE e) = .ok (canonE e, []) ∧ equivE e (canonE e) = true := by
  constructor
  · have h := parseExpr_display e fuel [] hg hf (by rfl)
    simpa using h
  · exact equivE_canon e

/-- Witness for c6_roundtrip_quote_free: the call (f 2 \x22a\x22) survives the
round trip. -/
theorem c6_roundtrip_quote_free_witness :
    parseExpr 40 (displayE (ExprR.call [ExprR.lookup (strToB "f"), ExprR.num (F64.num 2),
          ExprR.str (strToB "a")] dummyLoc))
      = .ok (canonE (ExprR.call [ExprR.lookup (strToB "f"), ExprR.num (F64.num 2),
          ExprR.str (strToB "a")] dummyLoc), [])
    ∧ equivE (ExprR.call [ExprR.lookup (strToB "f"), ExprR.num (F64.num 2),
          ExprR.str (strToB "a")] dummyLoc)
        (canonE (ExprR.call [ExprR.lookup (strToB "f"), ExprR.num (F64.num 2),
          ExprR.str (strToB "a")] dummyLoc)) = true :=
  c6_roundtrip_quote_free
    (ExprR.call [ExprR.lookup (strToB "f"), ExprR.num (F64.num 2),
      ExprR.str (strToB "a")] dummyLoc) 40 (by rfl)
    (by simp only [sizeE_call, sizeL_cons, sizeL_nil, sizeE]; omega)

end Rich

end Osyris
